import Mathlib

/-!
Verification of the threaded-comment subsystem of the FlurishMind backend
(`src/graphql/resolvers.js`, model `src/models/comment.js`).

The store is modelled shallowly: a MongoDB collection of comments becomes a
`List Comment`, users become a `List User`, and each resolver becomes a Lean
function over those lists.  Mongo ids (`ObjectId`) are modelled as `Nat`
(abstract, unique, `toString` injective); timestamps as `Nat` (ISO-8601 string
order is order-isomorphic to time order).  Fallible resolvers return
`Except String`; resolvers whose recursion depth depends on the stored tree
(`getRepliesRecursive`, `getAllDescendantIds`) additionally take fuel and
return `Option` (`none` = the recursion would not have terminated).
`save()`'s automatic `updatedAt` bump is not modelled (no claim mentions
time), and Mongoose `populate` of the `likes` array is modelled as returning
the stored user ids (no claim depends on dropped deleted likers).
-/

/-- A stored comment record (`src/models/comment.js`): `content`, `post`,
`creator` are required, `parentId` defaults to `null`, `likes` is a list of
user ids, plus the `timestamps: true` pair. -/
structure Comment where
  id : Nat
  content : String
  post : Nat
  creator : Nat
  parentId : Option Nat
  likes : List Nat
  createdAt : Nat
  updatedAt : Nat
deriving Repr, DecidableEq

/-- A stored user record, restricted to the fields the comment resolvers
read through `populate` (`name email avatar`). -/
structure User where
  id : Nat
  name : String
  email : String
  avatar : String
deriving Repr, DecidableEq

/-- The request context built by the auth middleware: `isAuth` plus the
requester's `userId`. -/
structure Ctx where
  isAuth : Bool
  userId : Nat
deriving Repr, DecidableEq

/-- The creator identity placed on a mapped comment (`_id` is a string
because the orphan fallback uses the literal `'deleted'`). -/
structure MUser where
  uid : String
  name : String
  email : String
  avatar : String
deriving Repr, DecidableEq

/-- The externally returned comment shape: the raw record's fields plus
`likesCount`, the mapped `creator`, a (possibly nested) `replies` list and
`repliesCount`.  Recursive because `replies` holds the same shape. -/
inductive MComment where
  | mk (id : Nat) (content : String) (post : Nat) (parentId : Option Nat)
      (creator : MUser) (likes : List Nat) (likesCount : Nat)
      (createdAt : Nat) (updatedAt : Nat)
      (replies : List MComment) (repliesCount : Nat)
deriving Repr

def MComment.id : MComment → Nat
  | .mk i _ _ _ _ _ _ _ _ _ _ => i

def MComment.content : MComment → String
  | .mk _ c _ _ _ _ _ _ _ _ _ => c

def MComment.parentId : MComment → Option Nat
  | .mk _ _ _ p _ _ _ _ _ _ _ => p

def MComment.creator : MComment → MUser
  | .mk _ _ _ _ u _ _ _ _ _ _ => u

def MComment.likes : MComment → List Nat
  | .mk _ _ _ _ _ l _ _ _ _ _ => l

def MComment.likesCount : MComment → Nat
  | .mk _ _ _ _ _ _ n _ _ _ _ => n

def MComment.createdAt : MComment → Nat
  | .mk _ _ _ _ _ _ _ t _ _ _ => t

def MComment.updatedAt : MComment → Nat
  | .mk _ _ _ _ _ _ _ _ t _ _ => t

def MComment.replies : MComment → List MComment
  | .mk _ _ _ _ _ _ _ _ _ r _ => r

def MComment.repliesCount : MComment → Nat
  | .mk _ _ _ _ _ _ _ _ _ _ n => n

/-- Replace the `replies` field (`mappedComment.replies = ...`). -/
def MComment.setReplies : MComment → List MComment → MComment
  | .mk i c po pa u l lc ca ua _ rc, rs => .mk i c po pa u l lc ca ua rs rc

/-- Model of `Comment.find({...}).sort({ createdAt: -1 })`: newest first. -/
def sortByCreatedAtDesc (l : List Comment) : List Comment :=
  l.insertionSort (fun a b => b.createdAt ≤ a.createdAt)

instance : IsTotal Comment (fun a b => b.createdAt ≤ a.createdAt) :=
  ⟨fun a b => Nat.le_total b.createdAt a.createdAt⟩

instance : IsTrans Comment (fun a b => b.createdAt ≤ a.createdAt) :=
  ⟨fun _ _ _ h1 h2 => Nat.le_trans h2 h1⟩

/-- Model of `Comment.find({ parentId }).sort({ createdAt: -1 })`. -/
def findChildren (store : List Comment) (p : Nat) : List Comment :=
  sortByCreatedAtDesc (store.filter (fun c => c.parentId == some p))

/-- Model of `Comment.find({ post, parentId: null }).sort({ createdAt: -1 })`. -/
def findTopLevel (store : List Comment) (postId : Nat) : List Comment :=
  sortByCreatedAtDesc
    (store.filter (fun c => c.post == postId && c.parentId == none))

/-- Model of `Comment.countDocuments({ parentId })`. -/
def countChildren (store : List Comment) (p : Nat) : Nat :=
  (store.filter (fun c => c.parentId == some p)).length

/-- Model of `Comment.countDocuments({ post, parentId: null })`. -/
def countTopLevel (store : List Comment) (postId : Nat) : Nat :=
  (store.filter (fun c => c.post == postId && c.parentId == none)).length

/-- Model of `populate('creator', ...)`: resolve a user reference, `none` when the
user record was deleted (Mongoose sets the field to `null`). -/
def resolveUser (users : List User) (uid : Nat) : Option User :=
  users.find? (fun u => u.id == uid)

/-- Model of `Comment.findById`. -/
def findComment (store : List Comment) (cid : Nat) : Option Comment :=
  store.find? (fun c => c.id == cid)

/-- Does the first character list start with the second? -/
def charsStartWith : List Char → List Char → Bool
  | _, [] => true
  | [], _ :: _ => false
  | a :: as, b :: bs => a == b && charsStartWith as bs

/-- JavaScript `String.prototype.includes`, on character lists. -/
def charsContain (s pat : List Char) : Bool :=
  charsStartWith s pat ||
    match s with
    | [] => false
    | _ :: tail => charsContain tail pat

/-- JavaScript `String.prototype.trim`: strip whitespace from both ends
(structurally recursive model of `String.trim`). -/
def jsTrim (s : String) : String :=
  String.mk
    (((s.data.dropWhile Char.isWhitespace).reverse.dropWhile
        Char.isWhitespace).reverse)

/-- Model of `avatar && avatar.includes('via.placeholder.com') ? '' : (avatar || '')`. -/
def normAvatar (a : String) : String :=
  if a ≠ "" ∧ charsContain a.toList "via.placeholder.com".toList then ""
  else a

/-- Sequential effectful map over `Option` (the shape `Promise.all` of a
mapped array takes in this shallow model: all must succeed). -/
def mapO (f : α → Option β) : List α → Option (List β)
  | [] => some []
  | a :: as =>
    match f a, mapO f as with
    | some b, some bs => some (b :: bs)
    | _, _ => none

/-- Collect a list of `Except` results, stopping at the first error. -/
def collectE (f : α → Except ε β) : List α → Except ε (List β)
  | [] => .ok []
  | a :: as =>
    match f a, collectE f as with
    | .ok b, .ok bs => .ok (b :: bs)
    | .error e, _ => .error e
    | _, .error e => .error e

/-- The orphan fallback used by `getRepliesRecursive` (lines 19–29 of
`resolvers.js`): a resolved creator keeps its fields (name falling back to
`'Deleted User'` when empty, placeholder avatars blanked), an unresolved one
becomes the sentinel identity. -/
def mapReplyCreator : Option User → MUser
  | some u =>
    ⟨toString u.id, if u.name = "" then "Deleted User" else u.name,
      u.email, normAvatar u.avatar⟩
  | none => ⟨"deleted", "Deleted User", "", ""⟩

/-- The sentinel identity substituted for a missing creator. -/
def deletedUser : MUser := ⟨"deleted", "Deleted User", "", ""⟩

/-- Model of `mapCommentData` (resolvers.js lines 120–153): normalize one comment for
return; `replies` is always `[]` ("Recursion handled elsewhere if needed"),
`repliesCount` is `countDocuments({ parentId: c._id })` against the store at
call time. -/
def mapCommentData (users : List User) (store : List Comment) (c : Comment) :
    MComment :=
  let creator :=
    match resolveUser users c.creator with
    | some u => MUser.mk (toString u.id) u.name u.email (normAvatar u.avatar)
    | none => deletedUser
  .mk c.id c.content c.post c.parentId creator c.likes c.likes.length
    c.createdAt c.updatedAt [] (countChildren store c.id)

/-- The node `getRepliesRecursive` builds for one reply record `c` whose
recursive replies came out as `rs`. -/
def buildReplyNode (users : List User) (store : List Comment) (c : Comment)
    (rs : List MComment) : MComment :=
  .mk c.id c.content c.post c.parentId
    (mapReplyCreator (resolveUser users c.creator)) c.likes c.likes.length
    c.createdAt c.updatedAt rs (countChildren store c.id)

/-- Model of `getRepliesRecursive(parentId)` (resolvers.js lines 10–44): fetch the
children newest-first and map each, recursing into its own replies.  `none`
when the recursion exceeds the fuel (would not terminate on a cyclic store). -/
def getRepliesRecursive (users : List User) (store : List Comment) :
    Nat → Nat → Option (List MComment)
  | 0, _ => none
  | fuel + 1, p =>
    mapO
      (fun c =>
        (getRepliesRecursive users store fuel c.id).map
          (fun rs => buildReplyNode users store c rs))
      (findChildren store p)

/-- The node `getNestedComments` builds inline for a top-level comment:
creator mapped with **no** orphan fallback (`c.creator._id` is dereferenced
directly) and no placeholder-avatar blanking. -/
def buildTopNode (store : List Comment) (c : Comment) (u : User)
    (rs : List MComment) : MComment :=
  .mk c.id c.content c.post c.parentId
    (MUser.mk (toString u.id) u.name u.email u.avatar) c.likes c.likes.length
    c.createdAt c.updatedAt rs (countChildren store c.id)

/-- Model of `getNestedComments(postId)` (resolvers.js lines 46–70): top-level
comments newest-first, each mapped inline (a missing creator makes
`c.creator._id.toString()` throw) with its full recursive reply tree. -/
def getNestedComments (users : List User) (store : List Comment)
    (postId : Nat) (fuel : Nat) : Option (Except String (List MComment)) :=
  (mapO
      (fun c =>
        match resolveUser users c.creator with
        | none =>
          some (Except.error "TypeError: cannot read _id of null creator")
        | some u =>
          (getRepliesRecursive users store fuel c.id).map
            (fun rs => Except.ok (buildTopNode store c u rs)))
      (findTopLevel store postId)).map
    (fun l => collectE id l)

/-- Model of `comment.save()` after an in-place field change: replace the record
whose id is `cid`. -/
def replaceComment (store : List Comment) (cid : Nat) (c' : Comment) :
    List Comment :=
  store.map (fun x => if x.id == cid then c' else x)

/-- Model of `comment.likes.push(userId)`. -/
def pushLike (c : Comment) (uid : Nat) : Comment :=
  { c with likes := c.likes ++ [uid] }

/-- Model of `comment.likes.pull(userId)`: remove every occurrence. -/
def pullLike (c : Comment) (uid : Nat) : Comment :=
  { c with likes := c.likes.filter (fun u => u ≠ uid) }

/-- Model of `likeComment` (resolvers.js lines 414–430): push the requester onto
`likes` only when absent (then save), and return the mapped comment. -/
def likeComment (users : List User) (store : List Comment) (cid : Nat)
    (ctx : Ctx) : Except String (MComment × List Comment) :=
  if !ctx.isAuth then .error "Not authenticated!" else
  match findComment store cid with
  | none => .error "Comment not found!"
  | some c =>
    if c.likes.contains ctx.userId then
      .ok (mapCommentData users store c, store)
    else
      let c' : Comment := pushLike c ctx.userId
      let store' := replaceComment store cid c'
      .ok (mapCommentData users store' c', store')

/-- Model of `unlikeComment` (resolvers.js lines 432–444): `likes.pull(userId)`
(remove every occurrence), save unconditionally, return the mapped comment. -/
def unlikeComment (users : List User) (store : List Comment) (cid : Nat)
    (ctx : Ctx) : Except String (MComment × List Comment) :=
  if !ctx.isAuth then .error "Not authenticated!" else
  match findComment store cid with
  | none => .error "Comment not found!"
  | some c =>
    let c' : Comment := pullLike c ctx.userId
    let store' := replaceComment store cid c'
    .ok (mapCommentData users store' c', store')

/-- The `commentInput` argument of `addComment`. -/
structure CommentInput where
  content : String
  postId : Nat
  parentId : Option Nat
deriving Repr, DecidableEq

/-- Model of `addComment` (resolvers.js lines 473–499): authenticate, reject blank
content, require the post and the requesting user to exist, then save the
new comment with `parentId: commentInput.parentId || null` — the parent
comment's existence is **not** checked. -/
def addComment (users : List User) (posts : List Nat) (store : List Comment)
    (input : CommentInput) (ctx : Ctx) (newId now : Nat) :
    Except String (MComment × List Comment) :=
  if !ctx.isAuth then .error "Not authenticated!" else
  if jsTrim input.content = "" then .error "Comment cannot be empty!" else
  if !posts.contains input.postId then .error "Post not found!" else
  match resolveUser users ctx.userId with
  | none => .error "User not found!"
  | some _ =>
    let c : Comment :=
      ⟨newId, jsTrim input.content, input.postId, ctx.userId, input.parentId,
        [], now, now⟩
    let store' := store ++ [c]
    .ok (mapCommentData users store' c, store')

/-- Model of `addReply` (resolvers.js lines 446–469): authenticate, reject blank
content, require the requesting user and the **parent comment** to exist,
then save (the post id is stored unchecked). -/
def addReply (users : List User) (store : List Comment)
    (postId commentId : Nat) (content : String) (ctx : Ctx)
    (newId now : Nat) : Except String (MComment × List Comment) :=
  if !ctx.isAuth then .error "Not authenticated!" else
  if jsTrim content = "" then .error "Reply cannot be empty!" else
  match resolveUser users ctx.userId with
  | none => .error "User not found!"
  | some _ =>
    match findComment store commentId with
    | none => .error "Parent comment not found!"
    | some _ =>
      let c : Comment :=
        ⟨newId, jsTrim content, postId, ctx.userId, some commentId, [], now, now⟩
      let store' := store ++ [c]
      .ok (mapCommentData users store' c, store')

/-- One mutating operation issued against the comment collection by
`deleteComment`. -/
inductive DelOp where
  | deleteMany (ids : List Nat)
  | deleteById (i : Nat)
deriving Repr, DecidableEq

/-- Apply a list of delete operations, in order, to the store. -/
def applyOps (store : List Comment) : List DelOp → List Comment
  | [] => store
  | .deleteMany ids :: rest =>
    applyOps (store.filter (fun c => !ids.contains c.id)) rest
  | .deleteById i :: rest =>
    applyOps (store.filter (fun c => c.id ≠ i)) rest

/-- Model of `getAllDescendantIds` (resolvers.js lines 526–534): the children's ids
followed by each child's own descendant ids, in child order.  The children
query is unsorted (`Comment.find({ parentId })`).  `none` when the fuel runs
out (the recursion would not have terminated on a cyclic store). -/
def getAllDescendantIds (store : List Comment) : Nat → Nat → Option (List Nat)
  | 0, _ => none
  | fuel + 1, p =>
    let children := store.filter (fun c => c.parentId == some p)
    (mapO (fun c => getAllDescendantIds store fuel c.id) children).map
      (fun rs => children.map (fun c => c.id) ++ rs.flatten)

/-- Model of `deleteComment` (resolvers.js lines 519–546): authenticate, find the
comment (a missing populated creator makes `comment.creator._id` throw),
authorize the creator, collect the descendant ids, then issue
`deleteMany({_id: {$in: descendantIds}})` (only when the set is non-empty)
followed by `findByIdAndDelete(commentId)`.  Returns the final store
together with the trace of delete operations issued. -/
def deleteComment (users : List User) (store : List Comment) (cid : Nat)
    (ctx : Ctx) (fuel : Nat) :
    Option (Except String (List Comment × List DelOp)) :=
  if !ctx.isAuth then some (.error "Not authenticated!") else
  match findComment store cid with
  | none => some (.error "Comment not found!")
  | some c =>
    match resolveUser users c.creator with
    | none => some (.error "TypeError: cannot read _id of null creator")
    | some u =>
      if u.id ≠ ctx.userId then some (.error "Not authorized!") else
      (getAllDescendantIds store fuel cid).map (fun descendantIds =>
        let ops :=
          (if descendantIds.isEmpty then [] else [.deleteMany descendantIds])
            ++ [DelOp.deleteById cid]
        .ok (applyOps store ops, ops))

/-- The record returned by `paginatedComments`. -/
structure PagComments where
  comments : List MComment
  totalComments : Nat
  hasMore : Bool

/-- The record returned by `paginatedReplies`. -/
structure PagReplies where
  replies : List MComment
  totalReplies : Nat
  hasMore : Bool

/-- Model of `paginatedComments` (resolvers.js lines 558–581): `page = 1`, `limit =
5` when omitted, `skip = (page-1)*limit`; the page's top-level comments
newest-first, each mapped by `mapCommentData` with its recursive replies
attached; `hasMore = skip + limit < totalComments`.  (A non-positive `page`,
which Mongo would reject, is outside the model: pages are 1-based.) -/
def paginatedComments (users : List User) (store : List Comment)
    (postId : Nat) (page limit : Option Nat) (ctx : Ctx) (fuel : Nat) :
    Option (Except String PagComments) :=
  if !ctx.isAuth then some (.error "Not authenticated!") else
  let page := page.getD 1
  let limit := limit.getD 5
  let skip := (page - 1) * limit
  let totalComments := countTopLevel store postId
  let topComments := ((findTopLevel store postId).drop skip).take limit
  (mapO
      (fun c =>
        (getRepliesRecursive users store fuel c.id).map
          (fun rs => (mapCommentData users store c).setReplies rs))
      topComments).map
    (fun comments =>
      .ok ⟨comments, totalComments, skip + limit < totalComments⟩)

/-- Model of `paginatedReplies` (resolvers.js lines 583–602): one page of a comment's
immediate replies, each mapped as a leaf by `mapCommentData` (no recursion);
`hasMore = skip + limit < totalReplies`. -/
def paginatedReplies (users : List User) (store : List Comment)
    (commentId : Nat) (page limit : Option Nat) (ctx : Ctx) :
    Except String PagReplies :=
  if !ctx.isAuth then .error "Not authenticated!" else
  let page := page.getD 1
  let limit := limit.getD 5
  let skip := (page - 1) * limit
  let totalReplies := countChildren store commentId
  let repliesData := ((findChildren store commentId).drop skip).take limit
  let replies := repliesData.map (fun r => mapCommentData users store r)
  .ok ⟨replies, totalReplies, skip + limit < totalReplies⟩

/-- Model of `updateComment` (resolvers.js lines 503–517): authenticate, reject blank
content, find the comment (a missing populated creator makes
`comment.creator._id` throw), authorize the creator, save the trimmed
content. -/
def updateComment (users : List User) (store : List Comment) (cid : Nat)
    (content : String) (ctx : Ctx) :
    Except String (MComment × List Comment) :=
  if !ctx.isAuth then .error "Not authenticated!" else
  if jsTrim content = "" then .error "Comment cannot be empty!" else
  match findComment store cid with
  | none => .error "Comment not found!"
  | some c =>
    match resolveUser users c.creator with
    | none => .error "TypeError: cannot read _id of null creator"
    | some u =>
      if u.id ≠ ctx.userId then .error "Not authorized!" else
      let c' : Comment := { c with content := jsTrim content }
      let store' := replaceComment store cid c'
      .ok (mapCommentData users store' c', store')

/-- The ids of the stored comments. -/
def storeIds (store : List Comment) : List Nat :=
  store.map (fun c => c.id)

/-- Ids are unique in the store (Mongo `_id` uniqueness). -/
def WfStore (store : List Comment) : Prop := (storeIds store).Nodup

/-- The chain of `parentId` references strictly above `x`, followed until it
leaves the store or hits `null`; `none` when the fuel runs out (i.e. the
chain cycles). -/
def ancestors (store : List Comment) : Nat → Nat → Option (List Nat)
  | 0, _ => none
  | fuel + 1, x =>
    match findComment store x with
    | none => some []
    | some c =>
      match c.parentId with
      | none => some []
      | some p => (ancestors store fuel p).map (fun l => p :: l)

/-- The forest invariant (spec §3): from every stored comment, following
`parentId` pointers terminates at a root without revisiting a node.  With a
deterministic parent function this is exactly: the ancestor chain of every
stored comment is finite, i.e. computable within `store.length + 1` steps. -/
def ForestInv (store : List Comment) : Prop :=
  ∀ c ∈ store, (ancestors store (store.length + 1) c.id).isSome

instance : DecidablePred (ForestInv) := fun store =>
  inferInstanceAs (Decidable (∀ c ∈ store, _))

/-- The ancestor chain of `x`, at the canonical fuel. -/
def ancList (store : List Comment) (x : Nat) : List Nat :=
  (ancestors store (store.length + 1) x).getD []

/-- Predicate: `x` is a strict transitive descendant of `root`: `x` is stored and
`root` lies on `x`'s ancestor chain. -/
def isDescendant (store : List Comment) (root x : Nat) : Prop :=
  x ∈ storeIds store ∧ root ∈ ancList store x

instance (store : List Comment) (root x : Nat) :
    Decidable (isDescendant store root x) :=
  inferInstanceAs (Decidable (_ ∧ _))

/-- Membership of a node anywhere in a materialized tree: either in the
returned list itself or nested inside some member's `replies`. -/
inductive InTree (l : List MComment) : MComment → Prop where
  | top {m : MComment} : m ∈ l → InTree l m
  | child {n m : MComment} : InTree l n → m ∈ n.replies → InTree l m

/-- Returns `true` exactly on successful results. -/
def isOkB : Except ε α → Bool
  | .ok _ => true
  | .error _ => false

/-- The stored `likes` list of a comment (`[]` when the id is absent). -/
def likedByOf (store : List Comment) (cid : Nat) : List Nat :=
  ((findComment store cid).map Comment.likes).getD []

/-- The store a mutation left behind (the input store on error). -/
def storeOf (fallback : List Comment) :
    Except String (MComment × List Comment) → List Comment
  | .ok (_, s) => s
  | .error _ => fallback

/- Concrete fixtures used by witnesses and counterexamples: post 1 carries
top-level comment 1 (creator 100, liked by 7) with replies 2 (creator 100,
newer) and 3 (creator 101, older); comment 2 has reply 4. -/

def wUsers : List User := [⟨100, "alice", "a@x.com", ""⟩, ⟨101, "bob", "b@x.com", ""⟩]

def wStore : List Comment :=
  [⟨1, "A", 1, 100, none, [7], 10, 10⟩,
   ⟨2, "B", 1, 100, some 1, [], 20, 20⟩,
   ⟨3, "C", 1, 101, some 1, [], 5, 5⟩,
   ⟨4, "D", 1, 100, some 2, [], 30, 30⟩]

/-- A one-comment store whose comment is already liked by user 7. -/
def likedStore : List Comment := [⟨1, "hi", 1, 2, none, [7], 10, 10⟩]

/-- A root comment (creator 2) with one reply, for the delete fixtures. -/
def delStore : List Comment :=
  [⟨1, "root", 1, 2, none, [], 10, 10⟩, ⟨2, "child", 1, 2, some 1, [], 20, 20⟩]

def delUsers : List User := [⟨2, "bob", "b@x.com", ""⟩]

/-- A store whose only (top-level) comment has an unresolvable creator. -/
def orphanStore : List Comment := [⟨1, "x", 1, 5, none, [], 10, 10⟩]

/- ======================  helper lemmas  ====================== -/

theorem mapO_eq_some_iff {α β : Type} {f : α → Option β} :
    ∀ {l : List α} {r : List β},
      mapO f l = some r ↔ List.Forall₂ (fun a b => f a = some b) l r := by
  intro l
  induction l with
  | nil =>
    intro r
    constructor
    · intro h
      simp only [mapO, Option.some.injEq] at h
      subst h; exact .nil
    · intro h; cases h; rfl
  | cons a as ih =>
    intro r
    constructor
    · intro h
      simp only [mapO] at h
      cases hfa : f a with
      | none => rw [hfa] at h; exact absurd h (by simp)
      | some b =>
        rw [hfa] at h
        cases hm : mapO f as with
        | none => rw [hm] at h; exact absurd h (by simp)
        | some bs =>
          rw [hm] at h
          simp only [Option.some.injEq] at h
          subst h
          exact .cons hfa (ih.mp hm)
    · intro h
      cases h with
      | cons hab htail =>
        simp only [mapO, hab, ih.mpr htail]

theorem mapO_isSome {α β : Type} {f : α → Option β} :
    ∀ {l : List α}, (mapO f l).isSome ↔ ∀ a ∈ l, (f a).isSome := by
  intro l
  induction l with
  | nil => simp [mapO]
  | cons a as ih =>
    simp only [mapO]
    cases hfa : f a with
    | none => simp [hfa]
    | some b =>
      cases hm : mapO f as with
      | none =>
        simp only [Option.isSome_none, Bool.false_eq_true, false_iff]
        intro hall
        have : (mapO f as).isSome := ih.mpr fun x hx => hall x (by simp [hx])
        rw [hm] at this; simp at this
      | some bs =>
        simp only [Option.isSome_some, true_iff]
        intro x hx
        rcases List.mem_cons.mp hx with rfl | hx'
        · simp [hfa]
        · exact ih.mp (by simp [hm]) x hx'

theorem exists_of_forall₂_mem {α β : Type} {R : α → β → Prop} :
    ∀ {l : List α} {r : List β}, List.Forall₂ R l r → ∀ {b}, b ∈ r →
      ∃ a ∈ l, R a b := by
  intro l r h
  induction h with
  | nil => intro b hb; cases hb
  | cons hab htail ih =>
    intro b hb
    rcases List.mem_cons.mp hb with rfl | hb'
    · exact ⟨_, by simp, hab⟩
    · rcases ih hb' with ⟨a, ha, hr⟩
      exact ⟨a, by simp [ha], hr⟩

theorem map_eq_of_forall₂ {α β γ : Type} {R : α → β → Prop}
    {g : β → γ} {g' : α → γ} :
    ∀ {l : List α} {r : List β}, List.Forall₂ R l r →
      (∀ a b, R a b → g b = g' a) → r.map g = l.map g' := by
  intro l r h hg
  induction h with
  | nil => rfl
  | cons hab htail ih => simp [hg _ _ hab, ih]

theorem pairwise_of_forall₂ {α β : Type} {R : α → β → Prop}
    {P : α → α → Prop} {Q : β → β → Prop} :
    ∀ {l : List α} {r : List β}, List.Forall₂ R l r → l.Pairwise P →
      (∀ a b a' b', R a a' → R b b' → P a b → Q a' b') → r.Pairwise Q := by
  intro l r h hp hf
  induction h with
  | nil => exact .nil
  | @cons a b as bs hab htail ih =>
    rcases List.pairwise_cons.mp hp with ⟨hhead, htl⟩
    refine List.pairwise_cons.mpr ⟨?_, ih htl⟩
    intro b' hb'
    rcases exists_of_forall₂_mem htail hb' with ⟨a', ha', hr⟩
    exact hf a a' b b' hab hr (hhead a' ha')

theorem collectE_ok_iff {α β : Type} {ε : Type} {f : α → Except ε β} :
    ∀ {l : List α} {r : List β},
      collectE f l = .ok r ↔ List.Forall₂ (fun a b => f a = .ok b) l r := by
  intro l
  induction l with
  | nil =>
    intro r
    constructor
    · intro h
      simp only [collectE, Except.ok.injEq] at h
      subst h; exact .nil
    · intro h; cases h; rfl
  | cons a as ih =>
    intro r
    constructor
    · intro h
      simp only [collectE] at h
      cases hfa : f a with
      | error e => rw [hfa] at h; exact absurd h (by simp)
      | ok b =>
        rw [hfa] at h
        cases hm : collectE f as with
        | error e => rw [hm] at h; exact absurd h (by simp)
        | ok bs =>
          rw [hm] at h
          simp only [Except.ok.injEq] at h
          subst h
          exact .cons hfa (ih.mp hm)
    · intro h
      cases h with
      | cons hab htail =>
        simp only [collectE, hab, ih.mpr htail]

theorem collectE_error_of_mem {α β : Type} {ε : Type} {f : α → Except ε β}
    {a : α} {e : ε} :
    ∀ {l : List α}, a ∈ l → f a = .error e →
      ∃ e', collectE f l = .error e' := by
  intro l hmem hfa
  induction l with
  | nil => cases hmem
  | cons b bs ih =>
    rcases List.mem_cons.mp hmem with rfl | hmem'
    · exact ⟨e, by simp [collectE, hfa]⟩
    · rcases ih hmem' with ⟨e', he'⟩
      cases hfb : f b with
      | error eb => exact ⟨eb, by simp [collectE, hfb]⟩
      | ok vb => exact ⟨e', by simp [collectE, hfb, he']⟩

theorem findComment_eq_some {store : List Comment} {cid : Nat} {c : Comment}
    (h : findComment store cid = some c) : c ∈ store ∧ c.id = cid := by
  refine ⟨List.mem_of_find?_eq_some h, ?_⟩
  have := List.find?_some h
  simpa using this

theorem wf_unique {store : List Comment} (wf : WfStore store) {a b : Comment}
    (ha : a ∈ store) (hb : b ∈ store) (h : a.id = b.id) : a = b :=
  List.inj_on_of_nodup_map wf ha hb h

theorem wf_findComment {store : List Comment} (wf : WfStore store)
    {c : Comment} (hc : c ∈ store) : findComment store c.id = some c := by
  rcases h : findComment store c.id with _ | d
  · have : ∀ x ∈ store, ¬(x.id == c.id) = true := List.find?_eq_none.mp h
    exact absurd (by simp : (c.id == c.id) = true) (this c hc)
  · rcases findComment_eq_some h with ⟨hd, hid⟩
    exact congrArg some (wf_unique wf hd hc hid)

@[simp] theorem buildReplyNode_id (u : List User) (s : List Comment)
    (c : Comment) (rs : List MComment) : (buildReplyNode u s c rs).id = c.id := rfl

@[simp] theorem buildReplyNode_creator (u : List User) (s : List Comment)
    (c : Comment) (rs : List MComment) :
    (buildReplyNode u s c rs).creator = mapReplyCreator (resolveUser u c.creator) := rfl

@[simp] theorem buildReplyNode_replies (u : List User) (s : List Comment)
    (c : Comment) (rs : List MComment) : (buildReplyNode u s c rs).replies = rs := rfl

@[simp] theorem buildReplyNode_repliesCount (u : List User) (s : List Comment)
    (c : Comment) (rs : List MComment) :
    (buildReplyNode u s c rs).repliesCount = countChildren s c.id := rfl

@[simp] theorem buildReplyNode_createdAt (u : List User) (s : List Comment)
    (c : Comment) (rs : List MComment) :
    (buildReplyNode u s c rs).createdAt = c.createdAt := rfl

@[simp] theorem buildTopNode_id (s : List Comment) (c : Comment) (u : User)
    (rs : List MComment) : (buildTopNode s c u rs).id = c.id := rfl

@[simp] theorem buildTopNode_replies (s : List Comment) (c : Comment) (u : User)
    (rs : List MComment) : (buildTopNode s c u rs).replies = rs := rfl

@[simp] theorem buildTopNode_repliesCount (s : List Comment) (c : Comment)
    (u : User) (rs : List MComment) :
    (buildTopNode s c u rs).repliesCount = countChildren s c.id := rfl

@[simp] theorem buildTopNode_createdAt (s : List Comment) (c : Comment)
    (u : User) (rs : List MComment) :
    (buildTopNode s c u rs).createdAt = c.createdAt := rfl

@[simp] theorem mapCommentData_id (u : List User) (s : List Comment)
    (c : Comment) : (mapCommentData u s c).id = c.id := rfl

@[simp] theorem mapCommentData_replies (u : List User) (s : List Comment)
    (c : Comment) : (mapCommentData u s c).replies = [] := rfl

@[simp] theorem mapCommentData_repliesCount (u : List User) (s : List Comment)
    (c : Comment) : (mapCommentData u s c).repliesCount = countChildren s c.id := rfl

@[simp] theorem mapCommentData_createdAt (u : List User) (s : List Comment)
    (c : Comment) : (mapCommentData u s c).createdAt = c.createdAt := rfl

theorem mapCommentData_creator_none (u : List User) (s : List Comment)
    (c : Comment) (h : resolveUser u c.creator = none) :
    (mapCommentData u s c).creator = deletedUser := by
  simp [mapCommentData, h, MComment.creator]

@[simp] theorem setReplies_id (m : MComment) (rs : List MComment) :
    (m.setReplies rs).id = m.id := by cases m; rfl

@[simp] theorem setReplies_replies (m : MComment) (rs : List MComment) :
    (m.setReplies rs).replies = rs := by cases m; rfl

@[simp] theorem setReplies_repliesCount (m : MComment) (rs : List MComment) :
    (m.setReplies rs).repliesCount = m.repliesCount := by cases m; rfl

@[simp] theorem setReplies_createdAt (m : MComment) (rs : List MComment) :
    (m.setReplies rs).createdAt = m.createdAt := by cases m; rfl

/-- Everything `mapCommentData` promises about its output shape: empty
`replies`, a replies count taken from the store it was given, its record's
id. -/
theorem mapCommentData_spec (u : List User) (s : List Comment) (c : Comment) :
    (mapCommentData u s c).replies = [] ∧
      (mapCommentData u s c).repliesCount =
        countChildren s (mapCommentData u s c).id := by
  simp

theorem find?_congr' {α : Type} {p q : α → Bool} :
    ∀ {l : List α}, (∀ a ∈ l, p a = q a) → l.find? p = l.find? q := by
  intro l h
  induction l with
  | nil => rfl
  | cons a as ih =>
    have ha := h a (by simp)
    simp only [List.find?]
    rw [ha]
    cases q a
    · exact ih fun x hx => h x (by simp [hx])
    · rfl

/-- Replacing the record whose id is `cid` by `c'` (with `c'.id = cid`)
commutes with looking the id up: the lookup finds `c'` exactly when it
found something before. -/
theorem findComment_replace {store : List Comment} {cid : Nat} {c' : Comment}
    (hid : c'.id = cid) :
    findComment (replaceComment store cid c') cid =
      (findComment store cid).map (fun x => if x.id == cid then c' else x) := by
  unfold findComment replaceComment
  rw [List.find?_map]
  refine congrArg (Option.map _) (find?_congr' ?_)
  intro a _
  by_cases h : a.id = cid
  · simp [Function.comp, h, hid]
  · simp [Function.comp, h]

theorem countP_split {α : Type} (p q : α → Bool) :
    ∀ (l : List α),
      l.countP p =
        l.countP (fun a => p a && q a) + l.countP (fun a => p a && !q a) := by
  intro l
  induction l with
  | nil => rfl
  | cons a as ih =>
    simp only [List.countP_cons]
    cases hp : p a <;> cases hq : q a <;> simp [hp, hq] <;> omega

/- ======================  C10  ====================== -/

/-- C10: every successful comment mutation (`addComment`, `updateComment`,
`likeComment`, `unlikeComment`) returns an object whose `replies` field is
the empty list regardless of stored children, while its `repliesCount`
still reports the actual immediate-child count (against the post-mutation
store). -/
theorem C10_mutations_return_empty_replies
    (users : List User) (posts : List Nat) (store : List Comment)
    (input : CommentInput) (ctx : Ctx) (newId now cid : Nat)
    (content : String) (m : MComment) (s' : List Comment) :
    (addComment users posts store input ctx newId now = .ok (m, s') →
      m.replies = [] ∧ m.repliesCount = countChildren s' m.id) ∧
    (updateComment users store cid content ctx = .ok (m, s') →
      m.replies = [] ∧ m.repliesCount = countChildren s' m.id) ∧
    (likeComment users store cid ctx = .ok (m, s') →
      m.replies = [] ∧ m.repliesCount = countChildren s' m.id) ∧
    (unlikeComment users store cid ctx = .ok (m, s') →
      m.replies = [] ∧ m.repliesCount = countChildren s' m.id) := by
  refine ⟨?_, ?_, ?_, ?_⟩
  · intro h
    simp only [addComment] at h
    split at h
    · exact Except.noConfusion h
    split at h
    · exact Except.noConfusion h
    split at h
    · exact Except.noConfusion h
    split at h
    · exact Except.noConfusion h
    simp only [Except.ok.injEq, Prod.mk.injEq] at h
    obtain ⟨rfl, rfl⟩ := h
    exact mapCommentData_spec _ _ _
  · intro h
    simp only [updateComment] at h
    split at h
    · exact Except.noConfusion h
    split at h
    · exact Except.noConfusion h
    split at h
    · exact Except.noConfusion h
    split at h
    · exact Except.noConfusion h
    split at h
    · exact Except.noConfusion h
    simp only [Except.ok.injEq, Prod.mk.injEq] at h
    obtain ⟨rfl, rfl⟩ := h
    exact mapCommentData_spec _ _ _
  · intro h
    simp only [likeComment] at h
    split at h
    · exact Except.noConfusion h
    split at h
    · exact Except.noConfusion h
    split at h
    · simp only [Except.ok.injEq, Prod.mk.injEq] at h
      obtain ⟨rfl, rfl⟩ := h
      exact mapCommentData_spec _ _ _
    · simp only [Except.ok.injEq, Prod.mk.injEq] at h
      obtain ⟨rfl, rfl⟩ := h
      exact mapCommentData_spec _ _ _
  · intro h
    simp only [unlikeComment] at h
    split at h
    · exact Except.noConfusion h
    split at h
    · exact Except.noConfusion h
    simp only [Except.ok.injEq, Prod.mk.injEq] at h
    obtain ⟨rfl, rfl⟩ := h
    exact mapCommentData_spec _ _ _

/-- Witness for C10 at concrete inputs: each of the four mutations run on a
one-comment store. -/
theorem C10_mutations_return_empty_replies_witness :
    ((MComment.mk 9 "hello" 1 (some 1) ⟨"2", "u", "e", ""⟩ [] 0 40 40 [] 0).replies = []
      ∧ (MComment.mk 9 "hello" 1 (some 1) ⟨"2", "u", "e", ""⟩ [] 0 40 40 [] 0).repliesCount =
          countChildren [⟨1, "hi", 1, 2, none, [], 10, 10⟩,
            ⟨9, "hello", 1, 2, some 1, [], 40, 40⟩]
            (MComment.mk 9 "hello" 1 (some 1) ⟨"2", "u", "e", ""⟩ [] 0 40 40 [] 0).id) ∧
    ((MComment.mk 1 "new" 1 none ⟨"2", "u", "e", ""⟩ [] 0 10 10 [] 0).replies = []
      ∧ (MComment.mk 1 "new" 1 none ⟨"2", "u", "e", ""⟩ [] 0 10 10 [] 0).repliesCount =
          countChildren [⟨1, "new", 1, 2, none, [], 10, 10⟩]
            (MComment.mk 1 "new" 1 none ⟨"2", "u", "e", ""⟩ [] 0 10 10 [] 0).id) ∧
    ((MComment.mk 1 "hi" 1 none ⟨"2", "u", "e", ""⟩ [3] 1 10 10 [] 0).replies = []
      ∧ (MComment.mk 1 "hi" 1 none ⟨"2", "u", "e", ""⟩ [3] 1 10 10 [] 0).repliesCount =
          countChildren [⟨1, "hi", 1, 2, none, [3], 10, 10⟩]
            (MComment.mk 1 "hi" 1 none ⟨"2", "u", "e", ""⟩ [3] 1 10 10 [] 0).id) ∧
    ((MComment.mk 1 "hi" 1 none ⟨"2", "u", "e", ""⟩ [] 0 10 10 [] 0).replies = []
      ∧ (MComment.mk 1 "hi" 1 none ⟨"2", "u", "e", ""⟩ [] 0 10 10 [] 0).repliesCount =
          countChildren [⟨1, "hi", 1, 2, none, [], 10, 10⟩]
            (MComment.mk 1 "hi" 1 none ⟨"2", "u", "e", ""⟩ [] 0 10 10 [] 0).id) :=
  ⟨(C10_mutations_return_empty_replies [⟨2, "u", "e", ""⟩] [1]
      [⟨1, "hi", 1, 2, none, [], 10, 10⟩] ⟨"hello", 1, some 1⟩ ⟨true, 2⟩ 9 40 1 "x"
      _ _).1 rfl,
   (C10_mutations_return_empty_replies [⟨2, "u", "e", ""⟩] [1]
      [⟨1, "hi", 1, 2, none, [], 10, 10⟩] ⟨"hello", 1, some 1⟩ ⟨true, 2⟩ 9 40 1 "new"
      _ _).2.1 rfl,
   (C10_mutations_return_empty_replies [⟨2, "u", "e", ""⟩] [1]
      [⟨1, "hi", 1, 2, none, [], 10, 10⟩] ⟨"hello", 1, some 1⟩ ⟨true, 3⟩ 9 40 1 "x"
      _ _).2.2.1 rfl,
   (C10_mutations_return_empty_replies [⟨2, "u", "e", ""⟩] [1]
      [⟨1, "hi", 1, 2, none, [], 10, 10⟩] ⟨"hello", 1, some 1⟩ ⟨true, 3⟩ 9 40 1 "x"
      _ _).2.2.2 rfl⟩

/- ======================  C2  ====================== -/

/-- C2 counterexample: with post 1 and user 2 existing and nothing stored,
`addComment` with `parentId = 99` — a comment id that does not exist —
succeeds and inserts the record carrying the dangling `parentId`, instead
of failing with a not-found error. -/
theorem C2_counterexample :
    findComment ([] : List Comment) 99 = none ∧
    (addComment [⟨2, "u", "e", ""⟩] [1] [] ⟨"hi", 1, some 99⟩ ⟨true, 2⟩ 5 10).map
        (fun r => r.2) =
      .ok [⟨5, "hi", 1, 2, some 99, [], 10, 10⟩] :=
  ⟨rfl, rfl⟩

/-- C2 amended: only `addReply` checks parent existence — it fails with
`'Parent comment not found!'` and inserts nothing when `commentId` does not
resolve.  `addComment` performs no parent-existence check at all: with the
other validations passing it succeeds and inserts the comment with the given
(dangling) `parentId`. -/
theorem C2_dangling_parent
    (users : List User) (store : List Comment) (posts : List Nat)
    (input : CommentInput) (postId commentId newId now p : Nat)
    (content : String) (ctx : Ctx) (u : User) :
    (ctx.isAuth = true → jsTrim content ≠ "" →
      resolveUser users ctx.userId = some u →
      findComment store commentId = none →
      addReply users store postId commentId content ctx newId now =
        .error "Parent comment not found!") ∧
    (ctx.isAuth = true → jsTrim input.content ≠ "" →
      posts.contains input.postId = true →
      resolveUser users ctx.userId = some u →
      input.parentId = some p →
      findComment store p = none →
      addComment users posts store input ctx newId now =
        .ok (mapCommentData users
              (store ++ [⟨newId, jsTrim input.content, input.postId,
                ctx.userId, input.parentId, [], now, now⟩])
              ⟨newId, jsTrim input.content, input.postId, ctx.userId,
                input.parentId, [], now, now⟩,
            store ++ [⟨newId, jsTrim input.content, input.postId, ctx.userId,
              input.parentId, [], now, now⟩])) := by
  constructor
  · intro hauth hcontent huser hparent
    simp [addReply, hauth, hcontent, huser, hparent]
  · intro hauth hcontent hpost huser _ _
    simp [addComment, hauth, hcontent, hpost, huser]
    simpa using hpost

/-- Witness for C2's amended theorem: both conjuncts applied at concrete
inputs (parent id 99 absent from the one-comment store). -/
theorem C2_dangling_parent_witness :
    (addReply [⟨2, "u", "e", ""⟩] [⟨1, "hi", 1, 2, none, [], 10, 10⟩] 1 99 "yo"
        ⟨true, 2⟩ 5 40 = .error "Parent comment not found!") ∧
    (addComment [⟨2, "u", "e", ""⟩] [1] [⟨1, "hi", 1, 2, none, [], 10, 10⟩]
        ⟨"yo", 1, some 99⟩ ⟨true, 2⟩ 5 40 =
      .ok (mapCommentData [⟨2, "u", "e", ""⟩]
            ([⟨1, "hi", 1, 2, none, [], 10, 10⟩] ++
              [⟨5, jsTrim "yo", 1, 2, some 99, [], 40, 40⟩])
            ⟨5, jsTrim "yo", 1, 2, some 99, [], 40, 40⟩,
          [⟨1, "hi", 1, 2, none, [], 10, 10⟩] ++
            [⟨5, jsTrim "yo", 1, 2, some 99, [], 40, 40⟩])) :=
  ⟨(C2_dangling_parent [⟨2, "u", "e", ""⟩] [⟨1, "hi", 1, 2, none, [], 10, 10⟩]
      [1] ⟨"yo", 1, some 99⟩ 1 99 5 40 99 "yo" ⟨true, 2⟩ ⟨2, "u", "e", ""⟩).1
      rfl (by decide) rfl rfl,
   (C2_dangling_parent [⟨2, "u", "e", ""⟩] [⟨1, "hi", 1, 2, none, [], 10, 10⟩]
      [1] ⟨"yo", 1, some 99⟩ 1 99 5 40 99 "yo" ⟨true, 2⟩ ⟨2, "u", "e", ""⟩).2
      rfl (by decide) rfl rfl rfl rfl⟩

/- ======================  C5  ====================== -/

/-- C5 counterexample: user 7 already likes comment 1.  `likeComment` twice
is a no-op (idempotence holds) but the subsequent `unlikeComment` removes
the pre-existing like, so the final `likedBy` is `[]`, not the original
`[7]` — the like/unlike sequence does not restore the initial set. -/
theorem C5_counterexample :
    likedByOf likedStore 1 = [7] ∧
    isOkB (likeComment [] likedStore 1 ⟨true, 7⟩) = true ∧
    likedByOf
        (storeOf likedStore
          (unlikeComment []
            (storeOf likedStore
              (likeComment []
                (storeOf likedStore (likeComment [] likedStore 1 ⟨true, 7⟩))
                1 ⟨true, 7⟩))
            1 ⟨true, 7⟩))
        1 = [] ∧
    ([] : List Nat) ≠ [7] := by
  refine ⟨rfl, rfl, rfl, by decide⟩

theorem findComment_replace_some {store : List Comment} {cid : Nat}
    {c c' : Comment} (hfind : findComment store cid = some c)
    (hid : c'.id = cid) :
    findComment (replaceComment store cid c') cid = some c' := by
  rw [findComment_replace hid, hfind]
  have hc : c.id = cid := (findComment_eq_some hfind).2
  simp [hc]

/-- What a successful `likeComment` tells us: the requester was
authenticated, the comment was found, and either the user already liked it
(store untouched) or the user was appended to `likes` (record replaced). -/
theorem likeComment_ok_elim {users : List User} {store : List Comment}
    {cid : Nat} {ctx : Ctx} {m : MComment} {s' : List Comment}
    (h : likeComment users store cid ctx = .ok (m, s')) :
    ctx.isAuth = true ∧ ∃ c, findComment store cid = some c ∧
      ((ctx.userId ∈ c.likes ∧ s' = store ∧
          m = mapCommentData users store c) ∨
       (ctx.userId ∉ c.likes ∧
          s' = replaceComment store cid (pushLike c ctx.userId) ∧
          m = mapCommentData users s' (pushLike c ctx.userId))) := by
  cases hauth : ctx.isAuth with
  | false => simp [likeComment, hauth] at h
  | true =>
    refine ⟨rfl, ?_⟩
    cases hfind : findComment store cid with
    | none => simp [likeComment, hauth, hfind] at h
    | some c =>
      by_cases hmem : ctx.userId ∈ c.likes
      · simp [likeComment, hauth, hfind, hmem] at h
        exact ⟨c, rfl, .inl ⟨hmem, h.2.symm, h.1.symm⟩⟩
      · simp [likeComment, hauth, hfind, hmem] at h
        refine ⟨c, rfl, .inr ⟨hmem, h.2.symm, ?_⟩⟩
        rw [← h.2]
        exact h.1.symm

theorem likeComment_of_mem {users : List User} {store : List Comment}
    {cid : Nat} {ctx : Ctx} {c : Comment} (hauth : ctx.isAuth = true)
    (hfind : findComment store cid = some c)
    (hmem : ctx.userId ∈ c.likes) :
    likeComment users store cid ctx =
      .ok (mapCommentData users store c, store) := by
  simp [likeComment, hauth, hfind, hmem]

theorem unlikeComment_of_found {users : List User} {store : List Comment}
    {cid : Nat} {ctx : Ctx} {c : Comment} (hauth : ctx.isAuth = true)
    (hfind : findComment store cid = some c) :
    unlikeComment users store cid ctx =
      .ok (mapCommentData users
            (replaceComment store cid (pullLike c ctx.userId))
            (pullLike c ctx.userId),
          replaceComment store cid (pullLike c ctx.userId)) := by
  simp [unlikeComment, hauth, hfind]

/-- C5 amended: `likeComment` is idempotent unconditionally — the second
like returns the same store, so `likedBy` is unchanged.  A subsequent
`unlikeComment` restores the `likedBy` set that held before the like
**provided the requester was not already in it**; when the requester was
already present, the like is a no-op and the unlike removes the
pre-existing entry (counterexample theorem). -/
theorem C5_like_idempotent_unlike_restores
    (users : List User) (store : List Comment) (cid : Nat) (ctx : Ctx)
    (m1 : MComment) (s1 : List Comment) :
    (likeComment users store cid ctx = .ok (m1, s1) →
      ∃ m2, likeComment users s1 cid ctx = .ok (m2, s1)) ∧
    (ctx.userId ∉ likedByOf store cid →
      likeComment users store cid ctx = .ok (m1, s1) →
      ∃ m2 s2, unlikeComment users s1 cid ctx = .ok (m2, s2) ∧
        likedByOf s2 cid = likedByOf store cid) := by
  constructor
  · intro h
    obtain ⟨hauth, c, hfind, hcases⟩ := likeComment_ok_elim h
    have hcid : c.id = cid := (findComment_eq_some hfind).2
    rcases hcases with ⟨hmem, rfl, -⟩ | ⟨hmem, rfl, -⟩
    · exact ⟨_, likeComment_of_mem hauth hfind hmem⟩
    · have hfind' :
          findComment (replaceComment store cid (pushLike c ctx.userId)) cid =
            some (pushLike c ctx.userId) :=
        findComment_replace_some hfind (by simp [pushLike, hcid])
      have hmem' : ctx.userId ∈ (pushLike c ctx.userId).likes := by
        simp [pushLike]
      exact ⟨_, likeComment_of_mem hauth hfind' hmem'⟩
  · intro hnot h
    obtain ⟨hauth, c, hfind, hcases⟩ := likeComment_ok_elim h
    have hcid : c.id = cid := (findComment_eq_some hfind).2
    have hliked : likedByOf store cid = c.likes := by simp [likedByOf, hfind]
    rw [hliked] at hnot
    rcases hcases with ⟨hmem, rfl, -⟩ | ⟨hmem, rfl, -⟩
    · exact absurd hmem hnot
    · have hfind' :
          findComment (replaceComment store cid (pushLike c ctx.userId)) cid =
            some (pushLike c ctx.userId) :=
        findComment_replace_some hfind (by simp [pushLike, hcid])
      refine ⟨_, _, unlikeComment_of_found hauth hfind', ?_⟩
      have hfind'' :
          findComment
            (replaceComment (replaceComment store cid (pushLike c ctx.userId))
              cid (pullLike (pushLike c ctx.userId) ctx.userId)) cid =
            some (pullLike (pushLike c ctx.userId) ctx.userId) :=
        findComment_replace_some hfind' (by simp [pullLike, pushLike, hcid])
      have haux : ∀ a ∈ c.likes, ¬a = ctx.userId :=
        fun a ha heq => hnot (heq ▸ ha)
      have hpull :
          (pullLike (pushLike c ctx.userId) ctx.userId).likes = c.likes := by
        simp only [pullLike, pushLike]
        rw [List.filter_append]
        have h1 : c.likes.filter (fun u => u ≠ ctx.userId) = c.likes :=
          List.filter_eq_self.mpr (by simpa using haux)
        simpa using haux
      simp [likedByOf, hfind'', hpull, hfind]

/-- Witness for C5's amended theorem at a concrete input: comment 1 starts
with no likes; user 7 likes it (giving `likedBy = [7]`), a second like
returns the same store, and the unlike restores `likedBy = []`. -/
theorem C5_like_idempotent_unlike_restores_witness :
    (∃ m2, likeComment ([] : List User) [⟨1, "hi", 1, 2, none, [7], 10, 10⟩] 1
        ⟨true, 7⟩ = .ok (m2, [⟨1, "hi", 1, 2, none, [7], 10, 10⟩])) ∧
    (∃ m2 s2, unlikeComment ([] : List User)
        [⟨1, "hi", 1, 2, none, [7], 10, 10⟩] 1 ⟨true, 7⟩ = .ok (m2, s2) ∧
      likedByOf s2 1 = likedByOf [⟨1, "hi", 1, 2, none, [], 10, 10⟩] 1) :=
  ⟨(C5_like_idempotent_unlike_restores [] [⟨1, "hi", 1, 2, none, [], 10, 10⟩]
      1 ⟨true, 7⟩ (mapCommentData [] [⟨1, "hi", 1, 2, none, [7], 10, 10⟩]
        ⟨1, "hi", 1, 2, none, [7], 10, 10⟩)
      [⟨1, "hi", 1, 2, none, [7], 10, 10⟩]).1 rfl,
   (C5_like_idempotent_unlike_restores [] [⟨1, "hi", 1, 2, none, [], 10, 10⟩]
      1 ⟨true, 7⟩ (mapCommentData [] [⟨1, "hi", 1, 2, none, [7], 10, 10⟩]
        ⟨1, "hi", 1, 2, none, [7], 10, 10⟩)
      [⟨1, "hi", 1, 2, none, [7], 10, 10⟩]).2 (by decide) rfl⟩

/- ======================  C8  ====================== -/

/-- C8 counterexample: deleting root comment 1 (which has descendant 2)
issues **two** delete operations — `deleteMany` over the descendants and a
separate `findByIdAndDelete` of the target — not a single bulk delete of
the full id set `{1, 2}`. -/
theorem C8_counterexample :
    deleteComment delUsers delStore 1 ⟨true, 2⟩ 3 =
      some (.ok ([], [.deleteMany [2], .deleteById 1])) ∧
    ([DelOp.deleteMany [2], DelOp.deleteById 1].length = 1 ↔ False) := by
  exact ⟨rfl, by simp⟩

/-- C8 amended: the subtree delete issues its removal as **two** store
operations — a bulk delete of the descendant ids (omitted when there are
none) followed by a point delete of the target id — not as one bulk delete
of descendants ∪ target.  The collection phase issues no mutation, so a
store failure after collection but before the first delete leaves every
comment in place; a failure between the two deletes, however, leaves the
descendants removed while the target is still present. -/
theorem C8_two_step_delete
    (users : List User) (store : List Comment) (cid : Nat) (ctx : Ctx)
    (fuel : Nat) (final : List Comment) (ops : List DelOp)
    (descendantIds : List Nat)
    (hd : getAllDescendantIds store fuel cid = some descendantIds)
    (h : deleteComment users store cid ctx fuel = some (.ok (final, ops))) :
    ops = (if descendantIds = [] then []
            else [.deleteMany descendantIds]) ++ [.deleteById cid] ∧
    final = applyOps store ops ∧
    applyOps store [] = store ∧
    (descendantIds ≠ [] →
      applyOps store (ops.take 1) =
        store.filter (fun c => !descendantIds.contains c.id)) := by
  have hsucc :
      applyOps store
          ((if descendantIds = [] then []
            else [DelOp.deleteMany descendantIds]) ++ [DelOp.deleteById cid]) =
          final ∧
        (if descendantIds = [] then []
          else [DelOp.deleteMany descendantIds]) ++ [DelOp.deleteById cid] =
          ops := by
    cases hauth : ctx.isAuth with
    | false => simp [deleteComment, hauth] at h
    | true =>
      cases hfind : findComment store cid with
      | none => simp [deleteComment, hauth, hfind] at h
      | some c =>
        cases hres : resolveUser users c.creator with
        | none => simp [deleteComment, hauth, hfind, hres] at h
        | some u =>
          by_cases huid : u.id = ctx.userId
          · simp [deleteComment, hauth, hfind, hres, huid, hd] at h
            exact h
          · simp [deleteComment, hauth, hfind, hres, huid] at h
  refine ⟨hsucc.2.symm, ?_, rfl, ?_⟩
  · rw [← hsucc.2]; exact hsucc.1.symm
  · intro hne
    rw [← hsucc.2]
    simp [hne, applyOps]

/-- Witness for C8's amended theorem at the concrete two-comment store. -/
theorem C8_two_step_delete_witness :
    ([DelOp.deleteMany [2], DelOp.deleteById 1] =
      (if ([2] : List Nat) = [] then []
        else [DelOp.deleteMany [2]]) ++ [DelOp.deleteById 1]) ∧
    (([] : List Comment) =
      applyOps delStore [DelOp.deleteMany [2], DelOp.deleteById 1]) ∧
    applyOps delStore [] = delStore ∧
    (([2] : List Nat) ≠ [] →
      applyOps delStore ([DelOp.deleteMany [2], DelOp.deleteById 1].take 1) =
        delStore.filter (fun c => !([2] : List Nat).contains c.id)) :=
  C8_two_step_delete delUsers delStore 1 ⟨true, 2⟩ 3 []
    [DelOp.deleteMany [2], DelOp.deleteById 1] [2] rfl rfl

/- ======================  C4  ====================== -/

/-- C4: both paginated listings with page `p` (default 1) and limit `L`
(default 5) skip `(p-1)*L` of the sorted children, return at most `L`
items, report `total` as the count of records matching the parent filter,
and report `hasMore = true` iff `p*L < total`. -/
theorem C4_pagination
    (users : List User) (store : List Comment) (postId commentId : Nat)
    (page limit : Option Nat) (ctx : Ctx) (fuel : Nat)
    (rc : PagComments) (rr : PagReplies)
    (hpage : 1 ≤ page.getD 1) :
    (paginatedComments users store postId page limit ctx fuel =
        some (.ok rc) →
      rc.totalComments = countTopLevel store postId ∧
      rc.comments.length ≤ limit.getD 5 ∧
      rc.comments.map MComment.id =
        (((findTopLevel store postId).drop
            ((page.getD 1 - 1) * limit.getD 5)).take (limit.getD 5)).map
          Comment.id ∧
      (rc.hasMore = true ↔
        page.getD 1 * limit.getD 5 < countTopLevel store postId)) ∧
    (paginatedReplies users store commentId page limit ctx = .ok rr →
      rr.totalReplies = countChildren store commentId ∧
      rr.replies.length ≤ limit.getD 5 ∧
      rr.replies.map MComment.id =
        (((findChildren store commentId).drop
            ((page.getD 1 - 1) * limit.getD 5)).take (limit.getD 5)).map
          Comment.id ∧
      (rr.hasMore = true ↔
        page.getD 1 * limit.getD 5 < countChildren store commentId)) := by
  have harith : ∀ p L : Nat, 1 ≤ p → (p - 1) * L + L = p * L := by
    intro p L hp
    rcases Nat.exists_eq_add_of_le hp with ⟨q, hq⟩
    subst hq
    simp [Nat.add_sub_cancel_left]
    ring
  have hskip := harith (page.getD 1) (limit.getD 5) hpage
  constructor
  · intro h
    cases hauth : ctx.isAuth with
    | false => simp [paginatedComments, hauth] at h
    | true =>
      simp only [paginatedComments, hauth] at h
      cases hm : mapO
          (fun c =>
            (getRepliesRecursive users store fuel c.id).map
              (fun rs => (mapCommentData users store c).setReplies rs))
          (((findTopLevel store postId).drop
              ((page.getD 1 - 1) * limit.getD 5)).take (limit.getD 5)) with
      | none => rw [hm] at h; simp at h
      | some comments =>
        rw [hm] at h
        simp only [Bool.not_true, Bool.false_eq_true, if_false,
          Option.map_some', Option.some.injEq, Except.ok.injEq] at h
        have hf := mapO_eq_some_iff.mp hm
        have hlen : comments.length ≤ limit.getD 5 := by
          rw [← hf.length_eq]
          exact List.length_take_le _ _
        have hids : comments.map MComment.id =
            (((findTopLevel store postId).drop
                ((page.getD 1 - 1) * limit.getD 5)).take (limit.getD 5)).map
              Comment.id := by
          refine map_eq_of_forall₂ hf ?_
          intro a b hab
          rcases Option.map_eq_some'.mp hab with ⟨rs, _, rfl⟩
          simp
        rw [← h]
        refine ⟨rfl, hlen, hids, ?_⟩
        simp [hskip]
  · intro h
    cases hauth : ctx.isAuth with
    | false => simp [paginatedReplies, hauth] at h
    | true =>
      simp only [paginatedReplies, hauth, Bool.not_true, Bool.false_eq_true,
        if_false, Except.ok.injEq] at h
      rw [← h]
      refine ⟨rfl, ?_, ?_, ?_⟩
      · simp only [List.length_map]
        exact List.length_take_le _ _
      · simp only [List.map_map]
        rfl
      · simp [hskip]

/-- Witness for C4 at a concrete input: page 2 / limit 1 over the
four-comment fixture store (post 1 has one top-level comment; comment 1 has
two replies). -/
theorem C4_pagination_witness :
    ((1 = countTopLevel wStore 1) ∧
      ([] : List MComment).length ≤ 1 ∧
      ([] : List MComment).map MComment.id =
        (((findTopLevel wStore 1).drop 1).take 1).map Comment.id ∧
      (false = true ↔ 2 * 1 < countTopLevel wStore 1)) ∧
    ((2 = countChildren wStore 1) ∧
      [MComment.mk 3 "C" 1 (some 1) ⟨"101", "bob", "b@x.com", ""⟩ [] 0 5 5
        [] 0].length ≤ 1 ∧
      [MComment.mk 3 "C" 1 (some 1) ⟨"101", "bob", "b@x.com", ""⟩ [] 0 5 5
        [] 0].map MComment.id =
        (((findChildren wStore 1).drop 1).take 1).map Comment.id ∧
      (false = true ↔ 2 * 1 < countChildren wStore 1)) :=
  ⟨(C4_pagination wUsers wStore 1 1 (some 2) (some 1) ⟨true, 100⟩ 5
      ⟨[], 1, false⟩
      ⟨[MComment.mk 3 "C" 1 (some 1) ⟨"101", "bob", "b@x.com", ""⟩ [] 0 5 5
        [] 0], 2, false⟩ (by decide)).1 rfl,
   (C4_pagination wUsers wStore 1 1 (some 2) (some 1) ⟨true, 100⟩ 5
      ⟨[], 1, false⟩
      ⟨[MComment.mk 3 "C" 1 (some 1) ⟨"101", "bob", "b@x.com", ""⟩ [] 0 5 5
        [] 0], 2, false⟩ (by decide)).2 rfl⟩

/- ============  ancestor-chain machinery (C1, C9, C7)  ============ -/

theorem ancestors_mono {store : List Comment} :
    ∀ {f f' x : Nat} {l : List Nat}, ancestors store f x = some l → f ≤ f' →
      ancestors store f' x = some l := by
  intro f
  induction f with
  | zero => intro f' x l h _; simp [ancestors] at h
  | succ f ih =>
    intro f' x l h hle
    cases f' with
    | zero => omega
    | succ f'' =>
      cases hfind : findComment store x with
      | none =>
        have h' : some ([] : List Nat) = some l := by
          rw [← h]; simp [ancestors, hfind]
        show ancestors store (f'' + 1) x = some l
        rw [← h']; simp [ancestors, hfind]
      | some c =>
        cases hp : c.parentId with
        | none =>
          have h' : some ([] : List Nat) = some l := by
            rw [← h]; simp [ancestors, hfind, hp]
          show ancestors store (f'' + 1) x = some l
          rw [← h']; simp [ancestors, hfind, hp]
        | some p =>
          have h' : (ancestors store f p).map (fun l => p :: l) = some l := by
            rw [← h]; simp [ancestors, hfind, hp]
          rcases Option.map_eq_some'.mp h' with ⟨lp, hlp, rfl⟩
          show ancestors store (f'' + 1) x = some (p :: lp)
          have := ih hlp (show f ≤ f'' by omega)
          simp [ancestors, hfind, hp, this]

theorem ancestors_length {store : List Comment} :
    ∀ {f x : Nat} {l : List Nat}, ancestors store f x = some l →
      l.length < f := by
  intro f
  induction f with
  | zero => intro x l h; simp [ancestors] at h
  | succ f ih =>
    intro x l h
    cases hfind : findComment store x with
    | none =>
      have h' : some ([] : List Nat) = some l := by
        rw [← h]; simp [ancestors, hfind]
      obtain rfl : ([] : List Nat) = l := Option.some.inj h'
      simp
    | some c =>
      cases hp : c.parentId with
      | none =>
        have h' : some ([] : List Nat) = some l := by
          rw [← h]; simp [ancestors, hfind, hp]
        obtain rfl : ([] : List Nat) = l := Option.some.inj h'
        simp
      | some p =>
        have h' : (ancestors store f p).map (fun l => p :: l) = some l := by
          rw [← h]; simp [ancestors, hfind, hp]
        rcases Option.map_eq_some'.mp h' with ⟨lp, hlp, rfl⟩
        have := ih hlp
        simp
        omega

theorem ancestors_child {store : List Comment} (wf : WfStore store)
    {c : Comment} (hc : c ∈ store) {p : Nat} (hp : c.parentId = some p)
    (f : Nat) :
    ancestors store (f + 1) c.id =
      (ancestors store f p).map (fun l => p :: l) := by
  simp [ancestors, wf_findComment wf hc, hp]

theorem ancestors_not_stored {store : List Comment} {q : Nat}
    (hq : findComment store q = none) (f : Nat) :
    ancestors store (f + 1) q = some [] := by
  simp [ancestors, hq]

theorem ancList_child {store : List Comment} (wf : WfStore store)
    (inv : ForestInv store) {c : Comment} (hc : c ∈ store) {p : Nat}
    (hp : c.parentId = some p) :
    ancestors store (store.length + 1) c.id =
      some (p :: ancList store p) ∧
    ancList store c.id = p :: ancList store p := by
  rcases Option.isSome_iff_exists.mp (inv c hc) with ⟨lc, hlc⟩
  have h3 := ancestors_child wf hc hp store.length
  rw [hlc] at h3
  rcases Option.map_eq_some'.mp h3.symm with ⟨lp, hlp, rfl⟩
  have hlp' : ancestors store (store.length + 1) p = some lp :=
    ancestors_mono hlp (by omega)
  have hancp : ancList store p = lp := by simp [ancList, hlp']
  exact ⟨by rw [hlc, hancp], by simp [ancList, hlc, hancp, hlp']⟩

theorem ancestors_suffix {store : List Comment} :
    ∀ {f x : Nat} {l : List Nat}, ancestors store f x = some l →
      ∀ {p : Nat}, p ∈ l →
        ∃ pre s, l = pre ++ p :: s ∧ ancestors store f p = some s := by
  intro f
  induction f with
  | zero => intro x l h; simp [ancestors] at h
  | succ f ih =>
    intro x l h p hp
    cases hfind : findComment store x with
    | none =>
      have h' : some ([] : List Nat) = some l := by
        rw [← h]; simp [ancestors, hfind]
      obtain rfl : ([] : List Nat) = l := Option.some.inj h'
      cases hp
    | some c =>
      cases hpar : c.parentId with
      | none =>
        have h' : some ([] : List Nat) = some l := by
          rw [← h]; simp [ancestors, hfind, hpar]
        obtain rfl : ([] : List Nat) = l := Option.some.inj h'
        cases hp
      | some q =>
        have h' : (ancestors store f q).map (fun l => q :: l) = some l := by
          rw [← h]; simp [ancestors, hfind, hpar]
        rcases Option.map_eq_some'.mp h' with ⟨lq, hlq, rfl⟩
        rcases List.mem_cons.mp hp with rfl | hp'
        · exact ⟨[], lq, rfl, ancestors_mono hlq (by omega)⟩
        · rcases ih hlq hp' with ⟨pre, s, rfl, hs⟩
          exact ⟨q :: pre, s, rfl, ancestors_mono hs (by omega)⟩

theorem ancList_trans {store : List Comment} {x y z : Nat}
    (hy : y ∈ ancList store x) (hz : z ∈ ancList store y) :
    z ∈ ancList store x := by
  cases han : ancestors store (store.length + 1) x with
  | none => simp [ancList, han] at hy
  | some l =>
    have hl : ancList store x = l := by simp [ancList, han]
    rw [hl] at hy ⊢
    rcases ancestors_suffix han hy with ⟨pre, s, rfl, hs⟩
    have hs' : ancList store y = s := by simp [ancList, hs]
    rw [hs'] at hz
    simp [hz]

theorem ancList_not_self {store : List Comment} {x : Nat}
    (h : (ancestors store (store.length + 1) x).isSome) :
    x ∉ ancList store x := by
  rcases Option.isSome_iff_exists.mp h with ⟨l, hl⟩
  have hal : ancList store x = l := by simp [ancList, hl]
  rw [hal]
  intro hmem
  rcases ancestors_suffix hl hmem with ⟨pre, s, heq, hs⟩
  rw [hl] at hs
  obtain rfl : l = s := Option.some.inj hs
  have := congrArg List.length heq
  simp at this
  omega

theorem child_not_anc {store : List Comment} (wf : WfStore store)
    (inv : ForestInv store) {c : Comment} (hc : c ∈ store) {p : Nat}
    (hp : c.parentId = some p) :
    c.id ≠ p ∧ c.id ∉ ancList store p := by
  obtain ⟨hsome, hanc⟩ := ancList_child wf inv hc hp
  constructor
  · rintro rfl
    have h1 : ancList store c.id = c.id :: ancList store c.id := hanc
    have := congrArg List.length h1
    simp at this
  · intro hmem
    cases hanp : ancestors store (store.length + 1) p with
    | none => simp [ancList, hanp] at hmem
    | some lp =>
      have hlp : ancList store p = lp := by simp [ancList, hanp]
      rw [hlp] at hmem hanc
      rcases ancestors_suffix hanp hmem with ⟨pre, s, heq, hs⟩
      rw [hsome] at hs
      have hs' : p :: ancList store p = s := Option.some.inj hs
      rw [hlp] at hs'
      have h1 := congrArg List.length heq
      have h2 := congrArg List.length hs'
      simp at h1 h2
      omega

theorem two_children_not_both_anc {store : List Comment} (wf : WfStore store)
    (inv : ForestInv store) {c1 c2 : Comment} (hc1 : c1 ∈ store)
    (hc2 : c2 ∈ store) {p : Nat} (hp1 : c1.parentId = some p)
    (hp2 : c2.parentId = some p) (hne : c1.id ≠ c2.id) {x : Nat}
    (h1 : c1.id ∈ ancList store x) (h2 : c2.id ∈ ancList store x) :
    False := by
  cases hx : ancestors store (store.length + 1) x with
  | none => simp [ancList, hx] at h1
  | some lx =>
    have hlx : ancList store x = lx := by simp [ancList, hx]
    rw [hlx] at h1 h2
    rcases ancestors_suffix hx h1 with ⟨pre1, s1, heq1, hs1⟩
    rcases ancestors_suffix hx h2 with ⟨pre2, s2, heq2, hs2⟩
    rw [(ancList_child wf inv hc1 hp1).1] at hs1
    rw [(ancList_child wf inv hc2 hp2).1] at hs2
    obtain rfl : p :: ancList store p = s1 := Option.some.inj hs1
    obtain rfl : p :: ancList store p = s2 := Option.some.inj hs2
    have hlen : pre1.length = pre2.length := by
      have e1 := congrArg List.length heq1
      have e2 := congrArg List.length heq2
      simp at e1 e2
      omega
    have heq3 : pre1 ++ c1.id :: p :: ancList store p =
        pre2 ++ c2.id :: p :: ancList store p := by rw [← heq1, ← heq2]
    have hinj := List.append_inj heq3 hlen
    have hcons := hinj.2
    injection hcons with h h'
    exact hne h

theorem forall₂_mem_left {α β : Type} {R : α → β → Prop} :
    ∀ {l : List α} {r : List β}, List.Forall₂ R l r → ∀ {a}, a ∈ l →
      ∃ b ∈ r, R a b := by
  intro l r h
  induction h with
  | nil => intro a ha; cases ha
  | cons hab htail ih =>
    intro a ha
    rcases List.mem_cons.mp ha with rfl | ha'
    · exact ⟨_, by simp, hab⟩
    · rcases ih ha' with ⟨b, hb, hr⟩
      exact ⟨b, by simp [hb], hr⟩

theorem pairwise_of_forall₂_mem {α β : Type} {R : α → β → Prop}
    {P : α → α → Prop} {Q : β → β → Prop} :
    ∀ {l : List α} {r : List β}, List.Forall₂ R l r → l.Pairwise P →
      (∀ a b a' b', a ∈ l → b ∈ l → R a a' → R b b' → P a b → Q a' b') →
      r.Pairwise Q := by
  intro l r h
  induction h with
  | nil => intro _ _; exact .nil
  | @cons a b as bs hab htail ih =>
    intro hp hf
    rcases List.pairwise_cons.mp hp with ⟨hhead, htl⟩
    refine List.pairwise_cons.mpr ⟨?_, ?_⟩
    · intro b' hb'
      rcases exists_of_forall₂_mem htail hb' with ⟨a', ha', hr⟩
      exact hf a a' b b' (by simp) (by simp [ha']) hab hr (hhead a' ha')
    · exact ih htl fun x y x' y' hx hy hrx hry hp' =>
        hf x y x' y' (by simp [hx]) (by simp [hy]) hrx hry hp'

theorem getAllDescendantIds_succ (store : List Comment) (f p : Nat) :
    getAllDescendantIds store (f + 1) p =
      (mapO (fun c => getAllDescendantIds store f c.id)
        (store.filter (fun c => c.parentId == some p))).map
        (fun rs =>
          (store.filter (fun c => c.parentId == some p)).map
            (fun c => c.id) ++ rs.flatten) := rfl

theorem desc_isSome {store : List Comment} (wf : WfStore store)
    (inv : ForestInv store) :
    ∀ (fuel : Nat) {p : Nat}, p ∈ storeIds store →
      store.length + 1 ≤ (ancList store p).length + fuel →
      (getAllDescendantIds store fuel p).isSome := by
  intro fuel
  induction fuel with
  | zero =>
    intro p hp hb
    rcases List.mem_map.mp hp with ⟨c, hc, rfl⟩
    rcases Option.isSome_iff_exists.mp (inv c hc) with ⟨l, hl⟩
    have hlen := ancestors_length hl
    have hal : ancList store c.id = l := by simp [ancList, hl]
    rw [hal] at hb
    omega
  | succ f ih =>
    intro p hp hb
    rw [getAllDescendantIds_succ]
    have hsome : (mapO (fun c => getAllDescendantIds store f c.id)
        (store.filter (fun c => c.parentId == some p))).isSome := by
      rw [mapO_isSome]
      intro c hc
      have hc' := List.mem_filter.mp hc
      have hcp : c.parentId = some p := by simpa using hc'.2
      have hanc := (ancList_child wf inv hc'.1 hcp).2
      apply ih
      · exact List.mem_map.mpr ⟨c, hc'.1, rfl⟩
      · rw [hanc]
        simp only [List.length_cons]
        omega
    rcases Option.isSome_iff_exists.mp hsome with ⟨rs, hrs⟩
    rw [hrs]
    rfl

theorem desc_mem {store : List Comment} (wf : WfStore store)
    (inv : ForestInv store) :
    ∀ {fuel p : Nat} {l : List Nat},
      getAllDescendantIds store fuel p = some l →
      ∀ {x}, x ∈ l → x ∈ storeIds store ∧ p ∈ ancList store x := by
  intro fuel
  induction fuel with
  | zero => intro p l h; simp [getAllDescendantIds] at h
  | succ f ih =>
    intro p l h x hx
    rw [getAllDescendantIds_succ] at h
    rcases Option.map_eq_some'.mp h with ⟨rs, hrs, rfl⟩
    rcases List.mem_append.mp hx with hx1 | hx2
    · rcases List.mem_map.mp hx1 with ⟨c, hcf, rfl⟩
      have hcf' := List.mem_filter.mp hcf
      have hcp : c.parentId = some p := by simpa using hcf'.2
      refine ⟨List.mem_map.mpr ⟨c, hcf'.1, rfl⟩, ?_⟩
      rw [(ancList_child wf inv hcf'.1 hcp).2]
      simp
    · rcases List.mem_flatten.mp hx2 with ⟨r, hr, hxr⟩
      have hf := mapO_eq_some_iff.mp hrs
      rcases exists_of_forall₂_mem hf hr with ⟨c, hcf, hcall⟩
      have hcf' := List.mem_filter.mp hcf
      have hcp : c.parentId = some p := by simpa using hcf'.2
      have hih := ih hcall hxr
      refine ⟨hih.1, ?_⟩
      have hpc : p ∈ ancList store c.id := by
        rw [(ancList_child wf inv hcf'.1 hcp).2]
        simp
      exact ancList_trans hih.2 hpc

theorem desc_closed {store : List Comment} :
    ∀ {fuel p : Nat} {l : List Nat},
      getAllDescendantIds store fuel p = some l →
      ∀ {q}, q ∈ l → ∀ {c : Comment}, c ∈ store → c.parentId = some q →
        c.id ∈ l := by
  intro fuel
  induction fuel with
  | zero => intro p l h; simp [getAllDescendantIds] at h
  | succ f ih =>
    intro p l h q hq c hc hcq
    rw [getAllDescendantIds_succ] at h
    rcases Option.map_eq_some'.mp h with ⟨rs, hrs, rfl⟩
    have hf := mapO_eq_some_iff.mp hrs
    rcases List.mem_append.mp hq with hq1 | hq2
    · rcases List.mem_map.mp hq1 with ⟨cq, hcqf, rfl⟩
      obtain ⟨r, hr, hcall⟩ := forall₂_mem_left hf hcqf
      cases f with
      | zero => simp [getAllDescendantIds] at hcall
      | succ f' =>
        rw [getAllDescendantIds_succ] at hcall
        rcases Option.map_eq_some'.mp hcall with ⟨rs', hrs', rfl⟩
        refine List.mem_append.mpr (.inr (List.mem_flatten.mpr ⟨_, hr, ?_⟩))
        refine List.mem_append.mpr (.inl ?_)
        exact List.mem_map.mpr
          ⟨c, List.mem_filter.mpr ⟨hc, by simp [hcq]⟩, rfl⟩
    · rcases List.mem_flatten.mp hq2 with ⟨r, hr, hqr⟩
      rcases exists_of_forall₂_mem hf hr with ⟨ck, hckf, hcall⟩
      have : c.id ∈ r := ih hcall hqr hc hcq
      exact List.mem_append.mpr (.inr (List.mem_flatten.mpr ⟨r, hr, this⟩))

theorem desc_complete {store : List Comment} (wf : WfStore store)
    (inv : ForestInv store) {fuel p : Nat} {l : List Nat}
    (hl : getAllDescendantIds store fuel p = some l) :
    ∀ c ∈ store, p ∈ ancList store c.id → c.id ∈ l := by
  suffices H : ∀ n (c : Comment), c ∈ store →
      (ancList store c.id).length = n → p ∈ ancList store c.id →
      c.id ∈ l by
    intro c hc hp
    exact H _ c hc rfl hp
  intro n
  induction n using Nat.strong_induction_on with
  | _ n ih =>
    intro c hc hn hp
    cases hpar : c.parentId with
    | none =>
      have hnone : ancestors store (store.length + 1) c.id = some [] := by
        simp [ancestors, wf_findComment wf hc, hpar]
      simp [ancList, hnone] at hp
    | some q =>
      have hanc := (ancList_child wf inv hc hpar).2
      rw [hanc] at hp
      rcases List.mem_cons.mp hp with rfl | hp'
      · cases fuel with
        | zero => simp [getAllDescendantIds] at hl
        | succ f =>
          rw [getAllDescendantIds_succ] at hl
          rcases Option.map_eq_some'.mp hl with ⟨rs, hrs, rfl⟩
          refine List.mem_append.mpr (.inl ?_)
          exact List.mem_map.mpr
            ⟨c, List.mem_filter.mpr ⟨hc, by simp [hpar]⟩, rfl⟩
      · cases hfq : findComment store q with
        | none =>
          have hnq : ancestors store (store.length + 1) q = some [] :=
            ancestors_not_stored hfq _
          simp [ancList, hnq] at hp'
        | some d =>
          obtain ⟨hd, hdid⟩ := findComment_eq_some hfq
          have hlen : (ancList store d.id).length < n := by
            rw [hdid, ← hn, hanc]
            simp
          have hdl : d.id ∈ l := by
            refine ih _ hlen d hd rfl ?_
            rw [hdid]
            exact hp'
          refine desc_closed hl hdl hc ?_
          rw [hdid]
          exact hpar

theorem desc_nodup {store : List Comment} (wf : WfStore store)
    (inv : ForestInv store) :
    ∀ {fuel p : Nat} {l : List Nat},
      getAllDescendantIds store fuel p = some l → l.Nodup := by
  intro fuel
  induction fuel with
  | zero => intro p l h; simp [getAllDescendantIds] at h
  | succ f ih =>
    intro p l h
    rw [getAllDescendantIds_succ] at h
    rcases Option.map_eq_some'.mp h with ⟨rs, hrs, rfl⟩
    have hf := mapO_eq_some_iff.mp hrs
    have hkid :
        ((store.filter (fun c => c.parentId == some p)).map
          (fun c => c.id)).Nodup := by
      have hsub : List.Sublist
          ((store.filter (fun c => c.parentId == some p)).map (fun c => c.id))
          (store.map (fun c => c.id)) :=
        (List.filter_sublist _).map _
      exact List.Nodup.sublist hsub wf
    rw [List.nodup_append]
    refine ⟨hkid, ?_, ?_⟩
    · rw [List.nodup_flatten]
      constructor
      · intro r hr
        rcases exists_of_forall₂_mem hf hr with ⟨c, _, hcall⟩
        exact ih hcall
      · have hpw :
            (store.filter (fun c => c.parentId == some p)).Pairwise
              (fun a b => a.id ≠ b.id) := List.pairwise_map.mp hkid
        refine pairwise_of_forall₂_mem hf hpw ?_
        intro c1 c2 r1 r2 hm1 hm2 h1 h2 hne12
        intro x hx1 hx2
        have hf1 := List.mem_filter.mp hm1
        have hf2 := List.mem_filter.mp hm2
        have hp1 : c1.parentId = some p := by simpa using hf1.2
        have hp2 : c2.parentId = some p := by simpa using hf2.2
        have ha1 := (desc_mem wf inv h1 hx1).2
        have ha2 := (desc_mem wf inv h2 hx2).2
        exact two_children_not_both_anc wf inv hf1.1 hf2.1 hp1 hp2 hne12
          ha1 ha2
    · intro x hx1 hx2
      rcases List.mem_map.mp hx1 with ⟨cx, hcxf, rfl⟩
      rcases List.mem_flatten.mp hx2 with ⟨r, hr, hxr⟩
      rcases exists_of_forall₂_mem hf hr with ⟨ck, hckf, hcall⟩
      have hcx' := List.mem_filter.mp hcxf
      have hck' := List.mem_filter.mp hckf
      have hcxp : cx.parentId = some p := by simpa using hcx'.2
      have hckp : ck.parentId = some p := by simpa using hck'.2
      have hmem := desc_mem wf inv hcall hxr
      have h2 := hmem.2
      rw [(ancList_child wf inv hcx'.1 hcxp).2] at h2
      rcases List.mem_cons.mp h2 with heq | hmem2
      · exact (child_not_anc wf inv hck'.1 hckp).1 heq
      · exact (child_not_anc wf inv hck'.1 hckp).2 hmem2

theorem countP_beq_count_map {α : Type} (f : α → Nat) (b : Nat) :
    ∀ l : List α, l.countP (fun a => f a == b) = (l.map f).count b := by
  intro l
  induction l with
  | nil => rfl
  | cons a as ih =>
    simp only [List.countP_cons, List.map_cons, List.count_cons, ih]

/- ======================  C9  ====================== -/

/-- C9: on any well-formed store satisfying the forest invariant, the
descendant-collection phase of `deleteComment` terminates (fuel
`store.length + 1` suffices) and the collected list names each stored
transitive descendant of the target exactly once (it is duplicate-free and
its members are exactly the descendants). -/
theorem C9_collection_terminates_visits_once
    (store : List Comment) (root : Comment) (wf : WfStore store)
    (inv : ForestInv store) (hr : root ∈ store) :
    ∃ l, getAllDescendantIds store (store.length + 1) root.id = some l ∧
      l.Nodup ∧ ∀ x, x ∈ l ↔ isDescendant store root.id x := by
  have hsome := desc_isSome wf inv (store.length + 1)
    (List.mem_map.mpr ⟨root, hr, rfl⟩) (by omega)
  rcases Option.isSome_iff_exists.mp hsome with ⟨l, hl⟩
  refine ⟨l, hl, desc_nodup wf inv hl, ?_⟩
  intro x
  constructor
  · intro hx
    exact desc_mem wf inv hl hx
  · rintro ⟨hx1, hx2⟩
    rcases List.mem_map.mp hx1 with ⟨c, hc, rfl⟩
    exact desc_complete wf inv hl c hc hx2

/-- Witness for C9 on the four-comment fixture store (root comment 1 has
descendants 2, 3 and 4). -/
theorem C9_collection_terminates_visits_once_witness :
    ∃ l, getAllDescendantIds wStore (wStore.length + 1) 1 = some l ∧
      l.Nodup ∧ ∀ x, x ∈ l ↔ isDescendant wStore 1 x :=
  C9_collection_terminates_visits_once wStore ⟨1, "A", 1, 100, none, [7], 10, 10⟩
    (show (storeIds wStore).Nodup by decide) (by decide) (by decide)

/- ======================  C1  ====================== -/

/-- C1: for an existing comment (found by id, creator resolving to the
authenticated requester) whose parent is `P`, `deleteComment` succeeds and
the final store keeps exactly the comments that are neither the target nor
one of its transitive descendants; the number of children of `P` decreases
by exactly one. -/
theorem C1_delete_removes_exact_subtree
    (users : List User) (store : List Comment) (cid P : Nat) (ctx : Ctx)
    (root : Comment) (u : User) (wf : WfStore store) (inv : ForestInv store)
    (hfind : findComment store cid = some root)
    (hres : resolveUser users root.creator = some u)
    (hu : u.id = ctx.userId) (hauth : ctx.isAuth = true)
    (hp : root.parentId = some P) :
    ∃ final ops,
      deleteComment users store cid ctx (store.length + 1) =
        some (.ok (final, ops)) ∧
      (∀ x : Comment, x ∈ final ↔
        x ∈ store ∧ x.id ≠ cid ∧ ¬isDescendant store cid x.id) ∧
      countChildren final P + 1 = countChildren store P := by
  obtain ⟨hrmem, hrid⟩ := findComment_eq_some hfind
  have hcidmem : cid ∈ storeIds store := List.mem_map.mpr ⟨root, hrmem, hrid⟩
  have hsome := desc_isSome wf inv (store.length + 1) hcidmem (by omega)
  rcases Option.isSome_iff_exists.mp hsome with ⟨dl, hdl⟩
  have hdesc_iff : ∀ x : Comment, x ∈ store →
      (x.id ∈ dl ↔ isDescendant store cid x.id) := by
    intro x hx
    constructor
    · intro h
      exact desc_mem wf inv hdl h
    · rintro ⟨_, h2⟩
      exact desc_complete wf inv hdl x hx h2
  -- the root is a child of P but not among the descendants
  have hroot_not_desc : ∀ a : Comment, a ∈ store → a.parentId = some P →
      a.id ∈ dl → a.id = cid := by
    intro a ha hap hadl
    have hd := desc_mem wf inv hdl hadl
    have hanc := (ancList_child wf inv ha hap).2
    have h2 := hd.2
    rw [hanc] at h2
    have hcna := child_not_anc wf inv hrmem hp
    rw [hrid] at hcna
    rcases List.mem_cons.mp h2 with heq | hmem2
    · exact absurd heq hcna.1
    · exact absurd hmem2 hcna.2
  have hdel : deleteComment users store cid ctx (store.length + 1) =
      some (.ok
        (applyOps store
          ((if dl = [] then [] else [DelOp.deleteMany dl]) ++
            [DelOp.deleteById cid]),
        (if dl = [] then [] else [DelOp.deleteMany dl]) ++
          [DelOp.deleteById cid])) := by
    simp [deleteComment, hauth, hfind, hres, hu, hdl]
  have hmem_final : ∀ x : Comment,
      x ∈ applyOps store
        ((if dl = [] then [] else [DelOp.deleteMany dl]) ++
          [DelOp.deleteById cid]) ↔
      x ∈ store ∧ x.id ∉ dl ∧ x.id ≠ cid := by
    intro x
    by_cases hdl0 : dl = []
    · subst hdl0
      simp [applyOps, List.mem_filter]
    · simp [hdl0, applyOps, List.mem_filter]
      tauto
  have hfinal_eq : applyOps store
      ((if dl = [] then [] else [DelOp.deleteMany dl]) ++
        [DelOp.deleteById cid]) =
      store.filter (fun x => !dl.contains x.id && !(x.id == cid)) := by
    by_cases hdl0 : dl = []
    · subst hdl0
      simp only [if_pos rfl, List.nil_append, applyOps]
      refine List.filter_congr ?_
      intro a _
      by_cases h : a.id = cid <;> simp [h]
    · simp only [if_neg hdl0, applyOps, List.countP_filter]
      rw [List.filter_filter]
      refine List.filter_congr ?_
      intro a _
      by_cases h : a.id = cid <;> by_cases h2 : a.id ∈ dl <;>
        simp [h, h2, Bool.and_comm]
  refine ⟨_, _, hdel, ?_, ?_⟩
  · intro x
    rw [hmem_final]
    constructor
    · rintro ⟨hx, hnd, hne⟩
      exact ⟨hx, hne, fun hd => hnd ((hdesc_iff x hx).mpr hd)⟩
    · rintro ⟨hx, hne, hnd⟩
      exact ⟨hx, fun hd => hnd ((hdesc_iff x hx).mp hd), hne⟩
  · rw [hfinal_eq]
    have h1 : countChildren
        (store.filter (fun x => !dl.contains x.id && !(x.id == cid))) P =
        store.countP (fun a =>
          (a.parentId == some P) && (!dl.contains a.id && !(a.id == cid))) := by
      unfold countChildren
      rw [← List.countP_eq_length_filter, List.countP_filter]
    have h2 : countChildren store P =
        store.countP (fun a => a.parentId == some P) := by
      unfold countChildren
      rw [← List.countP_eq_length_filter]
    have hsplit := countP_split (fun a : Comment => a.parentId == some P)
      (fun a => !dl.contains a.id && !(a.id == cid)) store
    have hone : store.countP (fun a =>
        (a.parentId == some P) && !(!dl.contains a.id && !(a.id == cid))) =
        store.countP (fun a => a.id == cid) := by
      refine List.countP_congr ?_
      intro a ha
      by_cases hid : a.id = cid
      · have ha_eq_root : a = root := wf_unique wf ha hrmem (by rw [hid, hrid])
        have hap : a.parentId = some P := by rw [ha_eq_root]; exact hp
        simp [hid, hap]
      · by_cases hq : a.parentId = some P
        · by_cases hdla : a.id ∈ dl
          · exact absurd (hroot_not_desc a ha hq hdla) hid
          · simp [hid, hq, hdla]
        · simp [hid, hq]
    have hcnt : store.countP (fun a => a.id == cid) = 1 := by
      rw [countP_beq_count_map]
      exact List.count_eq_one_of_mem wf hcidmem
    omega

/-- Witness for C1 on the fixture store: deleting comment 2 (a child of
comment 1 with its own child 4) by its creator. -/
theorem C1_delete_removes_exact_subtree_witness :
    ∃ final ops,
      deleteComment wUsers wStore 2 ⟨true, 100⟩ (wStore.length + 1) =
        some (.ok (final, ops)) ∧
      (∀ x : Comment, x ∈ final ↔
        x ∈ wStore ∧ x.id ≠ 2 ∧ ¬isDescendant wStore 2 x.id) ∧
      countChildren final 1 + 1 = countChildren wStore 1 :=
  C1_delete_removes_exact_subtree wUsers wStore 2 1 ⟨true, 100⟩
    ⟨2, "B", 1, 100, some 1, [], 20, 20⟩ ⟨100, "alice", "a@x.com", ""⟩
    (show (storeIds wStore).Nodup by decide) (by decide) (by decide)
    (by decide) rfl rfl rfl

/- ============  tree-materialization machinery (C3, C6, C7)  ============ -/

theorem isSome_map {α β : Type} (f : α → β) (o : Option α) :
    (o.map f).isSome = o.isSome := by
  cases o <;> rfl

theorem getRepliesRecursive_succ (users : List User) (store : List Comment)
    (f p : Nat) :
    getRepliesRecursive users store (f + 1) p =
      mapO
        (fun c =>
          (getRepliesRecursive users store f c.id).map
            (fun rs => buildReplyNode users store c rs))
        (findChildren store p) := rfl

theorem mem_findChildren {store : List Comment} {p : Nat} {c : Comment} :
    c ∈ findChildren store p ↔ c ∈ store ∧ c.parentId = some p := by
  unfold findChildren sortByCreatedAtDesc
  rw [List.mem_insertionSort, List.mem_filter]
  simp

theorem mem_findTopLevel {store : List Comment} {postId : Nat} {c : Comment} :
    c ∈ findTopLevel store postId ↔
      c ∈ store ∧ c.post = postId ∧ c.parentId = none := by
  unfold findTopLevel sortByCreatedAtDesc
  rw [List.mem_insertionSort, List.mem_filter]
  simp

/-- Each member of a `getRepliesRecursive` result is the mapped node of a
stored child of the queried parent, carrying a recursive result of its
own. -/
theorem grr_node {users : List User} {store : List Comment} :
    ∀ {fuel p : Nat} {l : List MComment},
      getRepliesRecursive users store fuel p = some l →
      ∀ {m}, m ∈ l → ∃ (f : Nat) (rs : List MComment) (c : Comment), fuel = f + 1 ∧ c ∈ store ∧
        c.parentId = some p ∧
        getRepliesRecursive users store f c.id = some rs ∧
        m = buildReplyNode users store c rs := by
  intro fuel
  cases fuel with
  | zero => intro p l h; simp [getRepliesRecursive] at h
  | succ f =>
    intro p l h m hm
    rw [getRepliesRecursive_succ] at h
    have hf := mapO_eq_some_iff.mp h
    rcases exists_of_forall₂_mem hf hm with ⟨c, hcf, hcall⟩
    rcases Option.map_eq_some'.mp hcall with ⟨rs, hrs, rfl⟩
    have hc := mem_findChildren.mp hcf
    exact ⟨f, rs, c, rfl, hc.1, hc.2, hrs, rfl⟩

/-- Every node anywhere in a materialized reply tree is the mapped node of
some stored comment, its `replies` being a recursive result. -/
theorem grr_inTree {users : List User} {store : List Comment}
    {fuel p : Nat} {l : List MComment}
    (h : getRepliesRecursive users store fuel p = some l) :
    ∀ {m}, InTree l m → ∃ (f : Nat) (rs : List MComment) (c : Comment), c ∈ store ∧
      getRepliesRecursive users store f c.id = some rs ∧
      m = buildReplyNode users store c rs := by
  intro m hm
  induction hm with
  | top hmem =>
    rcases grr_node h hmem with ⟨f, rs, c, _, hc, _, hcall, rfl⟩
    exact ⟨f, rs, c, hc, hcall, rfl⟩
  | child hn hmem ih =>
    rcases ih with ⟨f, rs, c, hc, hcall, rfl⟩
    rw [buildReplyNode_replies] at hmem
    rcases grr_node hcall hmem with ⟨f', rs', c', _, hc', _, hcall', rfl⟩
    exact ⟨f', rs', c', hc', hcall', rfl⟩

/-- Any materialized reply list is sorted newest-first. -/
theorem grr_sorted {users : List User} {store : List Comment}
    {fuel p : Nat} {l : List MComment}
    (h : getRepliesRecursive users store fuel p = some l) :
    l.Pairwise (fun a b => b.createdAt ≤ a.createdAt) := by
  cases fuel with
  | zero => simp [getRepliesRecursive] at h
  | succ f =>
    rw [getRepliesRecursive_succ] at h
    have hf := mapO_eq_some_iff.mp h
    have hsorted : (findChildren store p).Pairwise
        (fun a b : Comment => b.createdAt ≤ a.createdAt) := by
      unfold findChildren sortByCreatedAtDesc
      exact List.sorted_insertionSort _ _
    refine pairwise_of_forall₂_mem hf hsorted ?_
    intro a b a' b' _ _ hra hrb hab
    rcases Option.map_eq_some'.mp hra with ⟨rs, _, rfl⟩
    rcases Option.map_eq_some'.mp hrb with ⟨rs', _, rfl⟩
    simpa using hab

/-- Each member of a successful `getNestedComments` result is the inline
top-level node of a stored top-level comment with a resolved creator. -/
theorem getNestedComments_ok {users : List User} {store : List Comment}
    {postId fuel : Nat} {l : List MComment}
    (h : getNestedComments users store postId fuel = some (.ok l)) :
    ∀ {m}, m ∈ l → ∃ (c : Comment) (u : User) (rs : List MComment), c ∈ store ∧ c.parentId = none ∧
      c.post = postId ∧ resolveUser users c.creator = some u ∧
      getRepliesRecursive users store fuel c.id = some rs ∧
      m = buildTopNode store c u rs := by
  intro m hm
  unfold getNestedComments at h
  rcases Option.map_eq_some'.mp h with ⟨el, hel, hcollect⟩
  have hforall := collectE_ok_iff.mp hcollect
  rcases exists_of_forall₂_mem hforall hm with ⟨e, hemem, he⟩
  have hfo := mapO_eq_some_iff.mp hel
  rcases exists_of_forall₂_mem hfo hemem with ⟨c, hcmem, hg⟩
  have hc := mem_findTopLevel.mp hcmem
  cases hres : resolveUser users c.creator with
  | none =>
    rw [hres] at hg
    obtain rfl :
        (Except.error "TypeError: cannot read _id of null creator" :
          Except String MComment) = e := Option.some.inj hg
    exact Except.noConfusion he
  | some u =>
    rw [hres] at hg
    have hg' : (getRepliesRecursive users store fuel c.id).map
        (fun rs => Except.ok (buildTopNode store c u rs)) = some e := hg
    rcases Option.map_eq_some'.mp hg' with ⟨rs, hrs, rfl⟩
    have hm' : buildTopNode store c u rs = m := Except.ok.inj he
    exact ⟨c, u, rs, hc.1, hc.2.2, hc.2.1, hres, hrs, hm'.symm⟩

/-- Every node anywhere in a full nested tree is either an inline top-level
node or a mapped reply node, each backed by a stored comment. -/
theorem nested_inTree {users : List User} {store : List Comment}
    {postId fuel : Nat} {l : List MComment}
    (h : getNestedComments users store postId fuel = some (.ok l)) :
    ∀ {m}, InTree l m →
      (∃ (c : Comment) (u : User) (rs : List MComment), c ∈ store ∧
        resolveUser users c.creator = some u ∧
        getRepliesRecursive users store fuel c.id = some rs ∧
        m = buildTopNode store c u rs) ∨
      (∃ (f : Nat) (rs : List MComment) (c : Comment), c ∈ store ∧
        getRepliesRecursive users store f c.id = some rs ∧
        m = buildReplyNode users store c rs) := by
  intro m hm
  induction hm with
  | top hmem =>
    rcases getNestedComments_ok h hmem with ⟨c, u, rs, hc, _, _, hres, hcall, rfl⟩
    exact .inl ⟨c, u, rs, hc, hres, hcall, rfl⟩
  | child hn hmem ih =>
    rcases ih with ⟨c, u, rs, hc, hres, hcall, rfl⟩ | ⟨f, rs, c, hc, hcall, rfl⟩
    · rw [buildTopNode_replies] at hmem
      rcases grr_node hcall hmem with ⟨f', rs', c', _, hc', _, hcall', rfl⟩
      exact .inr ⟨f', rs', c', hc', hcall', rfl⟩
    · rw [buildReplyNode_replies] at hmem
      rcases grr_node hcall hmem with ⟨f', rs', c', _, hc', _, hcall', rfl⟩
      exact .inr ⟨f', rs', c', hc', hcall', rfl⟩

/-- The reply materializer terminates exactly when the delete collector
does: both recurse through the same children sets. -/
theorem grr_isSome_iff {users : List User} {store : List Comment} :
    ∀ {fuel p : Nat},
      (getRepliesRecursive users store fuel p).isSome =
        (getAllDescendantIds store fuel p).isSome := by
  intro fuel
  induction fuel with
  | zero => intro p; rfl
  | succ f ih =>
    intro p
    rw [getRepliesRecursive_succ, getAllDescendantIds_succ, isSome_map]
    by_cases h :
        ∀ c ∈ store.filter (fun c => c.parentId == some p),
          (getAllDescendantIds store f c.id).isSome
    · have h1 : (mapO (fun c => getAllDescendantIds store f c.id)
          (store.filter (fun c => c.parentId == some p))).isSome :=
        mapO_isSome.mpr h
      have h2 : (mapO
          (fun c =>
            (getRepliesRecursive users store f c.id).map
              (fun rs => buildReplyNode users store c rs))
          (findChildren store p)).isSome := by
        rw [mapO_isSome]
        intro c hc
        rw [isSome_map, ih]
        exact h c (List.mem_filter.mpr
          ⟨(mem_findChildren.mp hc).1, by simp [(mem_findChildren.mp hc).2]⟩)
      rw [h1, h2]
    · have h1 : ¬(mapO (fun c => getAllDescendantIds store f c.id)
          (store.filter (fun c => c.parentId == some p))).isSome = true := by
        rw [mapO_isSome]
        exact fun hall => h hall
      have h2 : ¬(mapO
          (fun c =>
            (getRepliesRecursive users store f c.id).map
              (fun rs => buildReplyNode users store c rs))
          (findChildren store p)).isSome = true := by
        rw [mapO_isSome]
        intro hall
        apply h
        intro c hc
        have hc' := List.mem_filter.mp hc
        have hcmem : c ∈ findChildren store p :=
          mem_findChildren.mpr ⟨hc'.1, by simpa using hc'.2⟩
        have := hall c hcmem
        rw [isSome_map, ih] at this
        exact this
      rw [Bool.eq_false_iff.mpr h1, Bool.eq_false_iff.mpr h2]

/-- Under the forest invariant the full reply tree of any stored comment
materializes (the read succeeds). -/
theorem grr_total {users : List User} {store : List Comment}
    (wf : WfStore store) (inv : ForestInv store) {p : Nat}
    (hp : p ∈ storeIds store) :
    (getRepliesRecursive users store (store.length + 1) p).isSome := by
  rw [grr_isSome_iff]
  exact desc_isSome wf inv _ hp (by omega)

theorem forall₂_comp {α β γ : Type} {R : α → β → Prop} {S : β → γ → Prop} :
    ∀ {l : List α} {r : List β} {s : List γ}, List.Forall₂ R l r →
      List.Forall₂ S r s →
      List.Forall₂ (fun a c => ∃ b, R a b ∧ S b c) l s := by
  intro l r s h1
  induction h1 generalizing s with
  | nil => intro h2; cases h2; exact .nil
  | cons hab htail ih =>
    intro h2
    cases h2 with
    | cons hbc htail2 => exact .cons ⟨_, hab, hbc⟩ (ih htail2)

/- ======================  C3  ====================== -/

/-- C3: on every read path — recursive reply trees, the full nested tree,
and the single-mutation mapper — each returned comment's `repliesCount`
equals the number of stored comments whose `parentId` is its id (immediate
children only). -/
theorem C3_repliesCount_is_child_count
    (users : List User) (store : List Comment) (fuel p postId : Nat)
    (l l' : List MComment) (c : Comment) :
    (getRepliesRecursive users store fuel p = some l →
      ∀ m, InTree l m → m.repliesCount = countChildren store m.id) ∧
    (getNestedComments users store postId fuel = some (.ok l') →
      ∀ m, InTree l' m → m.repliesCount = countChildren store m.id) ∧
    ((mapCommentData users store c).repliesCount =
      countChildren store (mapCommentData users store c).id) := by
  refine ⟨?_, ?_, by simp⟩
  · intro h m hm
    rcases grr_inTree h hm with ⟨f, rs, cc, hcc, hcall, rfl⟩
    simp
  · intro h m hm
    rcases nested_inTree h hm with
      ⟨cc, u, rs, hcc, hres, hcall, rfl⟩ | ⟨f, rs, cc, hcc, hcall, rfl⟩
    · simp
    · simp

/-- Witness for C3 on the two-comment fixture (root 1, reply 2): the reply
node, the top-level node and the mapper output all report the immediate
child count. -/
theorem C3_repliesCount_is_child_count_witness :
    ((MComment.mk 2 "child" 1 (some 1) ⟨"2", "bob", "b@x.com", ""⟩ [] 0 20 20
        [] 0).repliesCount =
      countChildren delStore
        (MComment.mk 2 "child" 1 (some 1) ⟨"2", "bob", "b@x.com", ""⟩ [] 0 20
          20 [] 0).id) ∧
    ((MComment.mk 1 "root" 1 none ⟨"2", "bob", "b@x.com", ""⟩ [] 0 10 10
        [MComment.mk 2 "child" 1 (some 1) ⟨"2", "bob", "b@x.com", ""⟩ [] 0 20
          20 [] 0] 1).repliesCount =
      countChildren delStore
        (MComment.mk 1 "root" 1 none ⟨"2", "bob", "b@x.com", ""⟩ [] 0 10 10
          [MComment.mk 2 "child" 1 (some 1) ⟨"2", "bob", "b@x.com", ""⟩ [] 0
            20 20 [] 0] 1).id) ∧
    ((mapCommentData delUsers delStore ⟨1, "root", 1, 2, none, [], 10, 10⟩).repliesCount =
      countChildren delStore
        (mapCommentData delUsers delStore
          ⟨1, "root", 1, 2, none, [], 10, 10⟩).id) :=
  ⟨(C3_repliesCount_is_child_count delUsers delStore 2 1 1
      [MComment.mk 2 "child" 1 (some 1) ⟨"2", "bob", "b@x.com", ""⟩ [] 0 20 20
        [] 0]
      [MComment.mk 1 "root" 1 none ⟨"2", "bob", "b@x.com", ""⟩ [] 0 10 10
        [MComment.mk 2 "child" 1 (some 1) ⟨"2", "bob", "b@x.com", ""⟩ [] 0 20
          20 [] 0] 1]
      ⟨1, "root", 1, 2, none, [], 10, 10⟩).1 rfl _
      (.top (List.mem_cons_self _ _)),
   (C3_repliesCount_is_child_count delUsers delStore 2 1 1
      [MComment.mk 2 "child" 1 (some 1) ⟨"2", "bob", "b@x.com", ""⟩ [] 0 20 20
        [] 0]
      [MComment.mk 1 "root" 1 none ⟨"2", "bob", "b@x.com", ""⟩ [] 0 10 10
        [MComment.mk 2 "child" 1 (some 1) ⟨"2", "bob", "b@x.com", ""⟩ [] 0 20
          20 [] 0] 1]
      ⟨1, "root", 1, 2, none, [], 10, 10⟩).2.1 rfl _
      (.top (List.mem_cons_self _ _)),
   (C3_repliesCount_is_child_count delUsers delStore 2 1 1 [] []
      ⟨1, "root", 1, 2, none, [], 10, 10⟩).2.2⟩

/- ======================  C6  ====================== -/

/-- C6: on every read path the children returned for any parent are sorted
among themselves in non-increasing `createdAt` order (newest first), the
rule applying independently at each tree level. -/
theorem C6_children_sorted_newest_first
    (users : List User) (store : List Comment)
    (fuel p postId commentId : Nat) (page limit : Option Nat) (ctx : Ctx)
    (l l' : List MComment) (rr : PagReplies) (rc : PagComments) :
    (getRepliesRecursive users store fuel p = some l →
      l.Pairwise (fun a b => b.createdAt ≤ a.createdAt) ∧
      ∀ m, InTree l m →
        m.replies.Pairwise (fun a b => b.createdAt ≤ a.createdAt)) ∧
    (getNestedComments users store postId fuel = some (.ok l') →
      l'.Pairwise (fun a b => b.createdAt ≤ a.createdAt) ∧
      ∀ m, InTree l' m →
        m.replies.Pairwise (fun a b => b.createdAt ≤ a.createdAt)) ∧
    (paginatedReplies users store commentId page limit ctx = .ok rr →
      rr.replies.Pairwise (fun a b => b.createdAt ≤ a.createdAt)) ∧
    (paginatedComments users store postId page limit ctx fuel =
        some (.ok rc) →
      rc.comments.Pairwise (fun a b => b.createdAt ≤ a.createdAt)) := by
  refine ⟨?_, ?_, ?_, ?_⟩
  · intro h
    refine ⟨grr_sorted h, ?_⟩
    intro m hm
    rcases grr_inTree h hm with ⟨f, rs, cc, hcc, hcall, rfl⟩
    rw [buildReplyNode_replies]
    exact grr_sorted hcall
  · intro h
    constructor
    · unfold getNestedComments at h
      rcases Option.map_eq_some'.mp h with ⟨el, hel, hcollect⟩
      have h1 := mapO_eq_some_iff.mp hel
      have h2 := collectE_ok_iff.mp hcollect
      have hcomp := forall₂_comp h1 h2
      have hsorted : (findTopLevel store postId).Pairwise
          (fun a b : Comment => b.createdAt ≤ a.createdAt) := by
        unfold findTopLevel sortByCreatedAtDesc
        exact List.sorted_insertionSort _ _
      refine pairwise_of_forall₂_mem hcomp hsorted ?_
      intro a b a' b' _ _ hra hrb hab
      rcases hra with ⟨e1, hg1, hok1⟩
      rcases hrb with ⟨e2, hg2, hok2⟩
      have hca : a'.createdAt = a.createdAt := by
        cases hres : resolveUser users a.creator with
        | none =>
          rw [hres] at hg1
          obtain rfl :
              (Except.error "TypeError: cannot read _id of null creator" :
                Except String MComment) = e1 := Option.some.inj hg1
          exact Except.noConfusion hok1
        | some u =>
          rw [hres] at hg1
          have hg1' : (getRepliesRecursive users store fuel a.id).map
              (fun rs => Except.ok (buildTopNode store a u rs)) = some e1 := hg1
          rcases Option.map_eq_some'.mp hg1' with ⟨rs, _, rfl⟩
          have := Except.ok.inj hok1
          rw [← this]
          simp
      have hcb : b'.createdAt = b.createdAt := by
        cases hres : resolveUser users b.creator with
        | none =>
          rw [hres] at hg2
          obtain rfl :
              (Except.error "TypeError: cannot read _id of null creator" :
                Except String MComment) = e2 := Option.some.inj hg2
          exact Except.noConfusion hok2
        | some u =>
          rw [hres] at hg2
          have hg2' : (getRepliesRecursive users store fuel b.id).map
              (fun rs => Except.ok (buildTopNode store b u rs)) = some e2 := hg2
          rcases Option.map_eq_some'.mp hg2' with ⟨rs, _, rfl⟩
          have := Except.ok.inj hok2
          rw [← this]
          simp
      rw [hca, hcb]
      exact hab
    · intro m hm
      rcases nested_inTree h hm with
        ⟨cc, u, rs, hcc, hres, hcall, rfl⟩ | ⟨f, rs, cc, hcc, hcall, rfl⟩
      · rw [buildTopNode_replies]
        exact grr_sorted hcall
      · rw [buildReplyNode_replies]
        exact grr_sorted hcall
  · intro h
    cases hauth : ctx.isAuth with
    | false => simp [paginatedReplies, hauth] at h
    | true =>
      simp only [paginatedReplies, hauth, Bool.not_true, Bool.false_eq_true,
        if_false, Except.ok.injEq] at h
      rw [← h]
      have hsorted : (findChildren store commentId).Pairwise
          (fun a b : Comment => b.createdAt ≤ a.createdAt) := by
        unfold findChildren sortByCreatedAtDesc
        exact List.sorted_insertionSort _ _
      have hsub : List.Sublist
          (((findChildren store commentId).drop
            ((page.getD 1 - 1) * limit.getD 5)).take (limit.getD 5))
          (findChildren store commentId) :=
        (List.take_sublist _ _).trans (List.drop_sublist _ _)
      have hsorted' := hsorted.sublist hsub
      refine List.pairwise_map.mpr (hsorted'.imp ?_)
      intro a b hab
      simpa using hab
  · intro h
    cases hauth : ctx.isAuth with
    | false => simp [paginatedComments, hauth] at h
    | true =>
      simp only [paginatedComments, hauth] at h
      cases hm : mapO
          (fun c =>
            (getRepliesRecursive users store fuel c.id).map
              (fun rs => (mapCommentData users store c).setReplies rs))
          (((findTopLevel store postId).drop
              ((page.getD 1 - 1) * limit.getD 5)).take (limit.getD 5)) with
      | none => rw [hm] at h; simp at h
      | some comments =>
        rw [hm] at h
        simp only [Bool.not_true, Bool.false_eq_true, if_false,
          Option.map_some', Option.some.injEq, Except.ok.injEq] at h
        rw [← h]
        have hf := mapO_eq_some_iff.mp hm
        have hsorted : (findTopLevel store postId).Pairwise
            (fun a b : Comment => b.createdAt ≤ a.createdAt) := by
          unfold findTopLevel sortByCreatedAtDesc
          exact List.sorted_insertionSort _ _
        have hsub : List.Sublist
            (((findTopLevel store postId).drop
              ((page.getD 1 - 1) * limit.getD 5)).take (limit.getD 5))
            (findTopLevel store postId) :=
          (List.take_sublist _ _).trans (List.drop_sublist _ _)
        refine pairwise_of_forall₂_mem hf (hsorted.sublist hsub) ?_
        intro a b a' b' _ _ hra hrb hab
        rcases Option.map_eq_some'.mp hra with ⟨rs, _, rfl⟩
        rcases Option.map_eq_some'.mp hrb with ⟨rs', _, rfl⟩
        simpa using hab

/-- Witness for C6 on the two-comment fixture: every read path's returned
lists are sorted. -/
theorem C6_children_sorted_newest_first_witness :
    (([MComment.mk 2 "child" 1 (some 1) ⟨"2", "bob", "b@x.com", ""⟩ [] 0 20 20
        [] 0]).Pairwise (fun a b => b.createdAt ≤ a.createdAt) ∧
      ∀ m, InTree [MComment.mk 2 "child" 1 (some 1) ⟨"2", "bob", "b@x.com", ""⟩
          [] 0 20 20 [] 0] m →
        m.replies.Pairwise (fun a b => b.createdAt ≤ a.createdAt)) ∧
    (([MComment.mk 1 "root" 1 none ⟨"2", "bob", "b@x.com", ""⟩ [] 0 10 10
        [MComment.mk 2 "child" 1 (some 1) ⟨"2", "bob", "b@x.com", ""⟩ [] 0 20
          20 [] 0] 1]).Pairwise (fun a b => b.createdAt ≤ a.createdAt) ∧
      ∀ m, InTree [MComment.mk 1 "root" 1 none ⟨"2", "bob", "b@x.com", ""⟩ []
          0 10 10
          [MComment.mk 2 "child" 1 (some 1) ⟨"2", "bob", "b@x.com", ""⟩ [] 0
            20 20 [] 0] 1] m →
        m.replies.Pairwise (fun a b => b.createdAt ≤ a.createdAt)) ∧
    ((PagReplies.mk [MComment.mk 2 "child" 1 (some 1)
        ⟨"2", "bob", "b@x.com", ""⟩ [] 0 20 20 [] 0] 1 false).replies.Pairwise
      (fun a b => b.createdAt ≤ a.createdAt)) ∧
    ((PagComments.mk [MComment.mk 1 "root" 1 none ⟨"2", "bob", "b@x.com", ""⟩
        [] 0 10 10
        [MComment.mk 2 "child" 1 (some 1) ⟨"2", "bob", "b@x.com", ""⟩ [] 0 20
          20 [] 0] 1] 1 false).comments.Pairwise
      (fun a b => b.createdAt ≤ a.createdAt)) :=
  ⟨(C6_children_sorted_newest_first delUsers delStore 2 1 1 1 none none
      ⟨true, 9⟩
      [MComment.mk 2 "child" 1 (some 1) ⟨"2", "bob", "b@x.com", ""⟩ [] 0 20 20
        [] 0]
      [MComment.mk 1 "root" 1 none ⟨"2", "bob", "b@x.com", ""⟩ [] 0 10 10
        [MComment.mk 2 "child" 1 (some 1) ⟨"2", "bob", "b@x.com", ""⟩ [] 0 20
          20 [] 0] 1]
      ⟨[MComment.mk 2 "child" 1 (some 1) ⟨"2", "bob", "b@x.com", ""⟩ [] 0 20
        20 [] 0], 1, false⟩
      ⟨[MComment.mk 1 "root" 1 none ⟨"2", "bob", "b@x.com", ""⟩ [] 0 10 10
        [MComment.mk 2 "child" 1 (some 1) ⟨"2", "bob", "b@x.com", ""⟩ [] 0 20
          20 [] 0] 1], 1, false⟩).1 rfl,
   (C6_children_sorted_newest_first delUsers delStore 2 1 1 1 none none
      ⟨true, 9⟩
      [MComment.mk 2 "child" 1 (some 1) ⟨"2", "bob", "b@x.com", ""⟩ [] 0 20 20
        [] 0]
      [MComment.mk 1 "root" 1 none ⟨"2", "bob", "b@x.com", ""⟩ [] 0 10 10
        [MComment.mk 2 "child" 1 (some 1) ⟨"2", "bob", "b@x.com", ""⟩ [] 0 20
          20 [] 0] 1]
      ⟨[MComment.mk 2 "child" 1 (some 1) ⟨"2", "bob", "b@x.com", ""⟩ [] 0 20
        20 [] 0], 1, false⟩
      ⟨[MComment.mk 1 "root" 1 none ⟨"2", "bob", "b@x.com", ""⟩ [] 0 10 10
        [MComment.mk 2 "child" 1 (some 1) ⟨"2", "bob", "b@x.com", ""⟩ [] 0 20
          20 [] 0] 1], 1, false⟩).2.1 rfl,
   (C6_children_sorted_newest_first delUsers delStore 2 1 1 1 none none
      ⟨true, 9⟩
      [MComment.mk 2 "child" 1 (some 1) ⟨"2", "bob", "b@x.com", ""⟩ [] 0 20 20
        [] 0]
      [MComment.mk 1 "root" 1 none ⟨"2", "bob", "b@x.com", ""⟩ [] 0 10 10
        [MComment.mk 2 "child" 1 (some 1) ⟨"2", "bob", "b@x.com", ""⟩ [] 0 20
          20 [] 0] 1]
      ⟨[MComment.mk 2 "child" 1 (some 1) ⟨"2", "bob", "b@x.com", ""⟩ [] 0 20
        20 [] 0], 1, false⟩
      ⟨[MComment.mk 1 "root" 1 none ⟨"2", "bob", "b@x.com", ""⟩ [] 0 10 10
        [MComment.mk 2 "child" 1 (some 1) ⟨"2", "bob", "b@x.com", ""⟩ [] 0 20
          20 [] 0] 1], 1, false⟩).2.2.1 rfl,
   (C6_children_sorted_newest_first delUsers delStore 3 1 1 1 none none
      ⟨true, 9⟩
      [MComment.mk 2 "child" 1 (some 1) ⟨"2", "bob", "b@x.com", ""⟩ [] 0 20 20
        [] 0]
      [MComment.mk 1 "root" 1 none ⟨"2", "bob", "b@x.com", ""⟩ [] 0 10 10
        [MComment.mk 2 "child" 1 (some 1) ⟨"2", "bob", "b@x.com", ""⟩ [] 0 20
          20 [] 0] 1]
      ⟨[MComment.mk 2 "child" 1 (some 1) ⟨"2", "bob", "b@x.com", ""⟩ [] 0 20
        20 [] 0], 1, false⟩
      ⟨[MComment.mk 1 "root" 1 none ⟨"2", "bob", "b@x.com", ""⟩ [] 0 10 10
        [MComment.mk 2 "child" 1 (some 1) ⟨"2", "bob", "b@x.com", ""⟩ [] 0 20
          20 [] 0] 1], 1, false⟩).2.2.2 rfl⟩

/- ======================  C7  ====================== -/

/-- C7 counterexample: a top-level comment whose creator record is missing
makes `getNestedComments` fail (the inline mapping dereferences
`c.creator._id` with no fallback) instead of substituting the sentinel —
the read does **not** succeed on this path. -/
theorem C7_counterexample :
    getNestedComments [] orphanStore 1 2 =
      some (.error "TypeError: cannot read _id of null creator") ∧
    (∀ l : List MComment,
      getNestedComments [] orphanStore 1 2 ≠ some (.ok l)) := by
  constructor
  · rfl
  · intro l h
    have h0 : getNestedComments [] orphanStore 1 2 =
        some (.error "TypeError: cannot read _id of null creator") := rfl
    rw [h0] at h
    exact Except.noConfusion (Option.some.inj h)

/-- C7 amended: a missing creator degrades to the sentinel `Deleted User`
identity on the reply read paths (`getRepliesRecursive`, which also
terminates — succeeds — under the forest invariant) and in
`mapCommentData` (used by the paginated and mutation paths); the inline
top-level mapping of `getNestedComments`, however, does not tolerate a
missing creator: any unresolvable top-level creator fails the whole read. -/
theorem C7_deleted_user_sentinel
    (users : List User) (store : List Comment) (wf : WfStore store)
    (inv : ForestInv store) (fuel p postId : Nat) (l : List MComment)
    (r : Except String (List MComment)) (c : Comment) :
    (p ∈ storeIds store →
      (getRepliesRecursive users store (store.length + 1) p).isSome) ∧
    (getRepliesRecursive users store fuel p = some l →
      ∀ m, InTree l m → ∀ cc, cc ∈ store → cc.id = m.id →
        resolveUser users cc.creator = none → m.creator = deletedUser) ∧
    (resolveUser users c.creator = none →
      (mapCommentData users store c).creator = deletedUser) ∧
    (getNestedComments users store postId fuel = some r →
      (∃ c0 ∈ findTopLevel store postId,
        resolveUser users c0.creator = none) →
      ∃ e, r = .error e) := by
  refine ⟨fun hp => grr_total wf inv hp, ?_, ?_, ?_⟩
  · intro h m hm cc hccmem hccid hres
    rcases grr_inTree h hm with ⟨f, rs, c', hc', hcall, rfl⟩
    have hid : cc.id = c'.id := by simpa using hccid
    obtain rfl : cc = c' := wf_unique wf hccmem hc' hid
    rw [buildReplyNode_creator, hres]
    rfl
  · intro hres
    exact mapCommentData_creator_none users store c hres
  · intro h hex
    rcases hex with ⟨c0, hc0mem, hc0res⟩
    unfold getNestedComments at h
    rcases Option.map_eq_some'.mp h with ⟨el, hel, hcollect⟩
    have hfo := mapO_eq_some_iff.mp hel
    rcases forall₂_mem_left hfo hc0mem with ⟨e, hemem, hg⟩
    rw [hc0res] at hg
    obtain rfl :
        (Except.error "TypeError: cannot read _id of null creator" :
          Except String MComment) = e := Option.some.inj hg
    rcases collectE_error_of_mem (f := id) hemem rfl with ⟨e', he'⟩
    exact ⟨e', by rw [← hcollect, he']⟩

/-- Witness for C7 with an empty user table over the two-comment fixture:
the reply read succeeds, its node and the mapper output carry the sentinel,
and the nested read fails. -/
theorem C7_deleted_user_sentinel_witness :
    (getRepliesRecursive [] delStore (delStore.length + 1) 1).isSome ∧
    (MComment.mk 2 "child" 1 (some 1) deletedUser [] 0 20 20 [] 0).creator =
      deletedUser ∧
    (mapCommentData [] delStore ⟨1, "root", 1, 2, none, [], 10, 10⟩).creator =
      deletedUser ∧
    ∃ e, (Except.error "TypeError: cannot read _id of null creator" :
      Except String (List MComment)) = .error e :=
  ⟨(C7_deleted_user_sentinel [] delStore
      (show (storeIds delStore).Nodup by decide) (by decide) 2 1 1
      [MComment.mk 2 "child" 1 (some 1) deletedUser [] 0 20 20 [] 0]
      (.error "TypeError: cannot read _id of null creator")
      ⟨1, "root", 1, 2, none, [], 10, 10⟩).1 (by decide),
   (C7_deleted_user_sentinel [] delStore
      (show (storeIds delStore).Nodup by decide) (by decide) 2 1 1
      [MComment.mk 2 "child" 1 (some 1) deletedUser [] 0 20 20 [] 0]
      (.error "TypeError: cannot read _id of null creator")
      ⟨1, "root", 1, 2, none, [], 10, 10⟩).2.1 rfl _
      (.top (List.mem_cons_self _ _)) ⟨2, "child", 1, 2, some 1, [], 20, 20⟩
      (by decide) rfl rfl,
   (C7_deleted_user_sentinel [] delStore
      (show (storeIds delStore).Nodup by decide) (by decide) 2 1 1
      [MComment.mk 2 "child" 1 (some 1) deletedUser [] 0 20 20 [] 0]
      (.error "TypeError: cannot read _id of null creator")
      ⟨1, "root", 1, 2, none, [], 10, 10⟩).2.2.1 rfl,
   (C7_deleted_user_sentinel [] delStore
      (show (storeIds delStore).Nodup by decide) (by decide) 2 1 1
      [MComment.mk 2 "child" 1 (some 1) deletedUser [] 0 20 20 [] 0]
      (.error "TypeError: cannot read _id of null creator")
      ⟨1, "root", 1, 2, none, [], 10, 10⟩).2.2.2 rfl
      ⟨⟨1, "root", 1, 2, none, [], 10, 10⟩, by decide, rfl⟩⟩
